import Mathlib

/-!
# Verification of the cache-backed retrieval layer of `environmental_dashboard`

This file gives a shallow embedding of the cache-backed fetchers in
`src/environmental_dashboard/api_handler.py` and
`src/environmental_dashboard/site_info.py`, and proves properties of them.

Modelling conventions:

* The filesystem is modelled per cache path: a call touches exactly one cache
  file, so the state is whether the cache directory exists and what (if
  anything) is stored at the cache path.  A file can be `readable` (its text
  content) or `unreadable` (present, but any attempt to open or read it raises
  `IOError`/`OSError`).
* The network is modelled as the outcome of `requests.get(url)`: either a
  transport-level `requests.exceptions.RequestException` (connection failure,
  timeout, ...) or a completed response with a status code and a body text.
  `response.raise_for_status()` raises `HTTPError` (a `RequestException`)
  exactly for status codes in `[400, 600)`.
* A call's result is `val` (a decoded payload was returned), `retNone`
  (the Python function returned `None`), or `raised` (an exception escaped
  the function).
* `pandas.read_csv(..., sep='\t', comment='#')` is modelled at the level of
  rows of string cells: lines are truncated at the first `#`, lines that are
  then empty are skipped, the first remaining line is the header, and every
  further line is a row, padded to the header width (pandas fills missing
  trailing fields with NaN; a row wider than the header is modelled as a parse
  failure, as the tokenizer raises there apart from index-inference corner
  cases the repository's data never hits).  dtype inference is not modelled:
  cells stay raw strings.  `pandas.errors.EmptyDataError` (no columns to
  parse) is modelled as the parse failure on texts with no effective line.
-/

/-- Content state of the single cache file a call touches. -/
inductive CFile : Type where
  | readable (content : String)
  | unreadable
deriving DecidableEq

/-- Filesystem state at the cache path: whether the parent cache directory
exists and what is stored at the path. -/
structure FS : Type where
  dirExists : Bool
  file : Option CFile
deriving DecidableEq

/-- Outcome of `requests.get(url)`: a transport exception, or a completed
response with status code and body text. -/
inductive Net : Type where
  | exn
  | success (status : Nat) (body : String)

/-- How a Python call ends: returning a payload, returning `None`, or letting
an exception escape. -/
inductive Res (α : Type) : Type where
  | val (a : α)
  | retNone
  | raised
deriving DecidableEq

/-- `response.raise_for_status()` raises `requests.exceptions.HTTPError`
exactly for 4xx / 5xx status codes. -/
def badStatus (status : Nat) : Prop := 400 ≤ status ∧ status < 600

instance (status : Nat) : Decidable (badStatus status) := by
  unfold badStatus; infer_instance

/-! ## The delimited-text (RDB) decode, `pd.read_csv(..., sep='\t', comment='#')` -/

/-- Split a character list at every occurrence of `sep`; always returns at
least one (possibly empty) piece. -/
def splitOnChar (sep : Char) : List Char → List (List Char)
  | [] => [[]]
  | c :: cs =>
    if c = sep then [] :: splitOnChar sep cs
    else
      match splitOnChar sep cs with
      | [] => [[c]]
      | l :: ls => (c :: l) :: ls

/-- `comment='#'`: pandas discards everything from the first `#` to the end of
the line. -/
def stripComment (l : List Char) : List Char := l.takeWhile (fun c => c ≠ '#')

/-- The lines pandas actually tokenizes: physical lines, truncated at `#`,
with lines that are then empty skipped (full-line comments and blank lines). -/
def effLines (cs : List Char) : List (List Char) :=
  ((splitOnChar '\n' cs).map stripComment).filter (fun l => l ≠ [])

/-- A decoded tab-separated table: header names and rows of string cells. -/
structure RTable : Type where
  header : List String
  rows : List (List String)
deriving DecidableEq

/-- One tokenized line: its tab-separated fields. -/
def tabFields (l : List Char) : List String :=
  (splitOnChar '\t' l).map List.asString

/-- Pad a row to the header width (missing trailing fields become NaN,
modelled as `""`); a row wider than the header is a tokenizer error. -/
def normalizeRow (n : Nat) (f : List String) : Option (List String) :=
  if n < f.length then none
  else some (f ++ List.replicate (n - f.length) "")

/-- Tokenize every data line against the header width; any failing line fails
the whole read. -/
def normalizeRows (n : Nat) : List (List Char) → Option (List (List String))
  | [] => some []
  | l :: ls =>
    match normalizeRow n (tabFields l), normalizeRows n ls with
    | some r, some rs => some (r :: rs)
    | _, _ => none

/-- Model of `pd.read_csv(text, sep='\t', comment='#')`.  `none` is a pandas
exception (`EmptyDataError` when no effective line remains, a tokenizer error
on an over-wide row). -/
def rdb_read (text : String) : Option RTable :=
  match effLines text.toList with
  | [] => none
  | h :: rest =>
    match normalizeRows (tabFields h).length rest with
    | none => none
    | some rs => some ⟨tabFields h, rs⟩

/-- The full RDB decode used on both the cache-hit and the cache-miss path:
`read_csv` followed by `df.iloc[1:].reset_index(drop=True)`, which drops the
first data row (the RDB width-specification second header) and renumbers the
remaining rows contiguously from zero (rows are a list, so renumbering is
positional). -/
def rdb_decode (text : String) : Option RTable :=
  (rdb_read text).map (fun t => ⟨t.header, t.rows.drop 1⟩)

/-! ## The delimited-text fetchers -/

namespace ApiHandler

/-- The shared cache-miss tail of `api_handler.get_usgs_rdb_data` (lines
161-192): `requests.get`, `raise_for_status`, `os.makedirs` for the cache
directory if missing, write `response.text` to the cache file, then parse the
just-fetched text.  Only `requests.exceptions.RequestException` is caught, so
a pandas failure on the just-fetched body escapes the function. -/
def rdbFetchMiss (net : Net) (fs : FS) : Res RTable × FS :=
  match net with
  | .exn => (.retNone, fs)
  | .success status body =>
    if badStatus status then (.retNone, fs)
    else
      let fs2 : FS := ⟨true, some (.readable body)⟩
      match rdb_decode body with
      | some t => (.val t, fs2)
      | none => (.raised, fs2)

/-- `api_handler.get_usgs_rdb_data(url)`, lines 119-192, given the outcome of
`requests.get(url)` and the state of the filesystem at the cache path derived
from `url`.  The cache-hit branch catches every `Exception` from reading and
parsing the cache file and falls through to the miss branch. -/
def get_usgs_rdb_data (net : Net) (fs : FS) : Res RTable × FS :=
  match fs.file with
  | some (.readable s) =>
    match rdb_decode s with
    | some t => (.val t, fs)
    | none => rdbFetchMiss net fs
  | some .unreadable => rdbFetchMiss net fs
  | none => rdbFetchMiss net fs

end ApiHandler

namespace SiteInfo

/-- `site_info.py` line 11: the cache filename is the fixed constant
`os.path.join(PROJECT_ROOT, 'data', 'usgs_sitedata.rdb')` (modelled relative
to the project root), not derived from the request URL. -/
def CACHE_FILENAME : String := "data/usgs_sitedata.rdb"

/-- `site_info.get_usgs_rdb_data(url, cache_file)`, lines 19-73: identical
logic to the `api_handler` variant, but the cache path is the caller-supplied
`cache_file` rather than a hash of `url`.  The network is URL-indexed
(`netOf url` is the outcome of `requests.get(url)`); `fs` is the filesystem
state at `cache_file`. -/
def get_usgs_rdb_data (url cache_file : String) (netOf : String → Net)
    (fs : FS) : Res RTable × FS :=
  match fs.file with
  | some (.readable s) =>
    match rdb_decode s with
    | some t => (.val t, fs)
    | none => ApiHandler.rdbFetchMiss (netOf url) fs
  | some .unreadable => ApiHandler.rdbFetchMiss (netOf url) fs
  | none => ApiHandler.rdbFetchMiss (netOf url) fs

end SiteInfo

/-! ## JSON values, the `json` library encode (`json.dump(..., indent=4)`) and
decode (`json.load` / `response.json()`)

JSON numbers are modelled as integers: the repository's payloads and the
claims never depend on fractional literals, and floating point is outside the
embedding.  Strings are lists of characters; the encoder escapes quotes,
backslashes and control characters the way `json.dump` does, and the decoder
undoes exactly those escapes. -/

mutual
inductive JValue : Type where
  | null
  | bool (b : Bool)
  | num (n : Int)
  | str (s : List Char)
  | arr (xs : JArr)
  | obj (kvs : JObj)
inductive JArr : Type where
  | nil
  | cons (hd : JValue) (tl : JArr)
inductive JObj : Type where
  | nil
  | cons (key : List Char) (val : JValue) (tl : JObj)
end

/-- The double-quote character, `"`. -/
def quoteC : Char := Char.ofNat 34

/-- The backslash character. -/
def backslashC : Char := Char.ofNat 92

/-- The opening-brace character. -/
def lbraceC : Char := Char.ofNat 123

/-- The closing-brace character. -/
def rbraceC : Char := Char.ofNat 125

/-- The sixteen lowercase hexadecimal digit characters. -/
def hexChars : List Char := "0123456789abcdef".toList

/-- The lowercase hexadecimal digit character for a value below 16. -/
def hexDigitChar (n : Nat) : Char := hexChars.getD n 'f'

/-- How `json.dump` writes one character of a string: quotes, backslashes and
control characters are escaped, everything else passes through. -/
def encStrChar (c : Char) : List Char :=
  if c = quoteC then [backslashC, quoteC]
  else if c = backslashC then [backslashC, backslashC]
  else if c = '\n' then [backslashC, 'n']
  else if c = '\t' then [backslashC, 't']
  else if c = '\r' then [backslashC, 'r']
  else if c.toNat = 8 then [backslashC, 'b']
  else if c.toNat = 12 then [backslashC, 'f']
  else if c.toNat < 32 then
    [backslashC, 'u', '0', '0', hexDigitChar (c.toNat / 16), hexDigitChar (c.toNat % 16)]
  else [c]

/-- The escaped body of a JSON string literal. -/
def encStrBody : List Char → List Char
  | [] => []
  | c :: cs => encStrChar c ++ encStrBody cs

/-- A JSON string literal: quote, escaped body, quote. -/
def encString (s : List Char) : List Char := quoteC :: (encStrBody s ++ [quoteC])

/-- Decimal digit characters. -/
def digitCharOf (d : Nat) : Char :=
  if d = 0 then '0' else if d = 1 then '1' else if d = 2 then '2'
  else if d = 3 then '3' else if d = 4 then '4' else if d = 5 then '5'
  else if d = 6 then '6' else if d = 7 then '7' else if d = 8 then '8'
  else '9'

/-- Decimal digits of a natural number, most significant first. -/
def natDigits (n : Nat) : List Char :=
  if n = 0 then ['0'] else ((Nat.digits 10 n).map digitCharOf).reverse

/-- How `json.dump` writes an integer. -/
def encInt (n : Int) : List Char :=
  if n < 0 then '-' :: natDigits n.natAbs else natDigits n.natAbs

/-- An indentation prefix of `n` spaces. -/
def pad (n : Nat) : List Char := List.replicate n ' '

mutual
/-- Model of the text `json.dump(v, f, indent=4)` writes, at current
indentation width `i`: items of containers go one per line, indented four
spaces deeper, separated by `,`; object keys are followed by `: `; empty
containers print with no inner newline. -/
def encVal (i : Nat) : JValue → List Char
  | .null => "null".toList
  | .bool b => (if b then "true" else "false").toList
  | .num n => encInt n
  | .str s => encString s
  | .arr .nil => ['[', ']']
  | .arr (.cons x tl) =>
    '[' :: '\n' :: (pad (i + 4) ++ (encVal (i + 4) x ++
      (encArrTail (i + 4) tl ++ ('\n' :: (pad i ++ [']'])))))
  | .obj .nil => [lbraceC, rbraceC]
  | .obj (.cons k v tl) =>
    lbraceC :: '\n' :: (pad (i + 4) ++ (encString k ++ (':' :: ' ' ::
      (encVal (i + 4) v ++ (encObjTail (i + 4) tl ++ ('\n' :: (pad i ++ [rbraceC])))))))
/-- The remaining array items after the first, each on its own line. -/
def encArrTail (i : Nat) : JArr → List Char
  | .nil => []
  | .cons x tl => ',' :: '\n' :: (pad i ++ (encVal i x ++ encArrTail i tl))
/-- The remaining object members after the first, each on its own line. -/
def encObjTail (i : Nat) : JObj → List Char
  | .nil => []
  | .cons k v tl =>
    ',' :: '\n' :: (pad i ++ (encString k ++ (':' :: ' ' :: (encVal i v ++ encObjTail i tl))))
end

/-- The text `json.dump(v, f, indent=4)` writes to the cache file. -/
def json_encode (v : JValue) : String := List.asString (encVal 0 v)

/-- JSON insignificant whitespace. -/
def isWsC (c : Char) : Bool := c = ' ' || c = '\n' || c = '\t' || c = '\r'

/-- Skip insignificant whitespace. -/
def skipWs (cs : List Char) : List Char := cs.dropWhile isWsC

/-- Decimal digit test. -/
def isDigitC (c : Char) : Bool := '0' ≤ c && c ≤ '9'

/-- The value of a big-endian string of decimal digits. -/
def digitsToNat (ds : List Char) : Nat := ds.foldl (fun a c => a * 10 + (c.toNat - 48)) 0

/-- Read a nonempty run of decimal digits. -/
def parseNat (cs : List Char) : Option (Nat × List Char) :=
  match cs.takeWhile isDigitC with
  | [] => none
  | ds => some (digitsToNat ds, cs.dropWhile isDigitC)

/-- The value of a hexadecimal digit character. -/
def hexVal (c : Char) : Option Nat :=
  if isDigitC c then some (c.toNat - 48)
  else if 'a' ≤ c ∧ c ≤ 'f' then some (c.toNat - 87)
  else if 'A' ≤ c ∧ c ≤ 'F' then some (c.toNat - 55)
  else none

/-- The character denoted by a single-letter escape. -/
def escChar (e : Char) : Option Char :=
  if e = quoteC then some quoteC
  else if e = backslashC then some backslashC
  else if e = '/' then some '/'
  else if e = 'n' then some '\n'
  else if e = 't' then some '\t'
  else if e = 'r' then some '\r'
  else if e = 'b' then some (Char.ofNat 8)
  else if e = 'f' then some (Char.ofNat 12)
  else none

/-- Read the body of a JSON string literal after its opening quote, undoing
escapes, up to the closing quote; returns the string and the remaining text.
`\u` escapes below the surrogate range are accepted (the encoder only emits
them for control characters). -/
def parseStrBody : List Char → Option (List Char × List Char)
  | [] => none
  | c :: rest =>
    if c = quoteC then some ([], rest)
    else if c = backslashC then
      match rest with
      | [] => none
      | e :: rest2 =>
        if e = 'u' then
          match rest2 with
          | h1 :: h2 :: h3 :: h4 :: rest3 =>
            match hexVal h1, hexVal h2, hexVal h3, hexVal h4 with
            | some a, some b, some c2, some d =>
              let n := ((a * 16 + b) * 16 + c2) * 16 + d
              if n < 55296 then
                match parseStrBody rest3 with
                | some (s, r) => some (Char.ofNat n :: s, r)
                | none => none
              else none
            | _, _, _, _ => none
          | _ => none
        else
          match escChar e with
          | some c2 =>
            match parseStrBody rest2 with
            | some (s, r) => some (c2 :: s, r)
            | none => none
          | none => none
    else
      match parseStrBody rest with
      | some (s, r) => some (c :: s, r)
      | none => none

mutual
/-- Recursive-descent JSON value reader, fuelled to bound the recursion; with
fuel at least the input length every value the encoder emits is read back. -/
def parseValue : Nat → List Char → Option (JValue × List Char)
  | 0, _ => none
  | fuel + 1, cs =>
    match skipWs cs with
    | [] => none
    | c :: rest =>
      if c = 'n' then
        match rest with
        | 'u' :: 'l' :: 'l' :: r => some (.null, r)
        | _ => none
      else if c = 't' then
        match rest with
        | 'r' :: 'u' :: 'e' :: r => some (.bool true, r)
        | _ => none
      else if c = 'f' then
        match rest with
        | 'a' :: 'l' :: 's' :: 'e' :: r => some (.bool false, r)
        | _ => none
      else if c = quoteC then
        match parseStrBody rest with
        | some (s, r) => some (.str s, r)
        | none => none
      else if c = '[' then
        match skipWs rest with
        | [] => none
        | c2 :: r2 =>
          if c2 = ']' then some (.arr .nil, r2)
          else
            match parseArrItems fuel (c2 :: r2) with
            | some (xs, r) => some (.arr xs, r)
            | none => none
      else if c = lbraceC then
        match skipWs rest with
        | [] => none
        | c2 :: r2 =>
          if c2 = rbraceC then some (.obj .nil, r2)
          else
            match parseObjItems fuel (c2 :: r2) with
            | some (kvs, r) => some (.obj kvs, r)
            | none => none
      else if c = '-' then
        match parseNat rest with
        | some (n, r) => some (.num (-(n : Int)), r)
        | none => none
      else if isDigitC c then
        match parseNat (c :: rest) with
        | some (n, r) => some (.num (n : Int), r)
        | none => none
      else none
/-- Read one or more comma-separated array items and the closing bracket. -/
def parseArrItems : Nat → List Char → Option (JArr × List Char)
  | 0, _ => none
  | fuel + 1, cs =>
    match parseValue fuel cs with
    | none => none
    | some (v, r) =>
      match skipWs r with
      | [] => none
      | c :: r2 =>
        if c = ',' then
          match parseArrItems fuel r2 with
          | some (tl, r3) => some (.cons v tl, r3)
          | none => none
        else if c = ']' then some (.cons v .nil, r2)
        else none
/-- Read one or more comma-separated object members and the closing brace. -/
def parseObjItems : Nat → List Char → Option (JObj × List Char)
  | 0, _ => none
  | fuel + 1, cs =>
    match skipWs cs with
    | [] => none
    | c :: rest =>
      if c = quoteC then
        match parseStrBody rest with
        | none => none
        | some (k, r1) =>
          match skipWs r1 with
          | [] => none
          | c2 :: r2 =>
            if c2 = ':' then
              match parseValue fuel r2 with
              | none => none
              | some (v, r3) =>
                match skipWs r3 with
                | [] => none
                | c3 :: r4 =>
                  if c3 = ',' then
                    match parseObjItems fuel r4 with
                    | some (tl, r5) => some (.cons k v tl, r5)
                    | none => none
                  else if c3 = rbraceC then some (.cons k v .nil, r4)
                  else none
            else none
      else none
end

/-- Model of `json.load(f)` / `response.json()`: read one value and require
that only whitespace follows it.  Fractional and exponent number literals are
not modelled (none of the claims depends on them). -/
def json_load (s : String) : Option JValue :=
  match parseValue (s.length + 1) s.toList with
  | some (v, rest) => if skipWs rest = [] then some v else none
  | none => none

/-! ## The JSON fetcher -/

namespace ApiHandler

/-- The cache-miss tail of `api_handler.get_usgs_json_data` (lines 97-116):
`requests.get`, `raise_for_status`, `response.json()`, then write the decoded
payload back pretty-printed with `json.dump(data, f, indent=4)`.  Only
`requests.exceptions.RequestException` is caught (this covers `HTTPError`
from `raise_for_status` and, in current `requests`, the
`requests.exceptions.JSONDecodeError` from `response.json()`).  Unlike the
RDB fetcher, nothing creates the cache directory, so when it is missing the
`open(cache_filename, 'w')` raises `FileNotFoundError`, which is not a
`RequestException` and escapes the function. -/
def jsonFetchMiss (net : Net) (fs : FS) : Res JValue × FS :=
  match net with
  | .exn => (.retNone, fs)
  | .success status body =>
    if badStatus status then (.retNone, fs)
    else
      match json_load body with
      | none => (.retNone, fs)
      | some v =>
        if fs.dirExists then (.val v, ⟨true, some (.readable (json_encode v))⟩)
        else (.raised, fs)

/-- `api_handler.get_usgs_json_data(url)`, lines 60-116, given the outcome of
`requests.get(url)` and the state of the filesystem at the cache path derived
from `url`.  The cache-hit branch catches exactly `json.JSONDecodeError` and
`IOError` and falls through to the miss branch. -/
def get_usgs_json_data (net : Net) (fs : FS) : Res JValue × FS :=
  match fs.file with
  | some (.readable s) =>
    match json_load s with
    | some v => (.val v, fs)
    | none => jsonFetchMiss net fs
  | some .unreadable => jsonFetchMiss net fs
  | none => jsonFetchMiss net fs

end ApiHandler

/-! ## CacheKeyDeriver: `hashlib.md5(url.encode('utf-8')).hexdigest()`

The MD5 compression function is implemented in full (RFC 1321) over byte
lists; machine words are naturals reduced modulo `2^32` where the algorithm
overflows. -/

/-- UTF-8 encoding of one code point. -/
def utf8Char (n : Nat) : List Nat :=
  if n < 128 then [n]
  else if n < 2048 then [192 + n / 64, 128 + n % 64]
  else if n < 65536 then [224 + n / 4096, 128 + n / 64 % 64, 128 + n % 64]
  else [240 + n / 262144, 128 + n / 4096 % 64, 128 + n / 64 % 64, 128 + n % 64]

/-- `url.encode('utf-8')`: the UTF-8 bytes of a string. -/
def utf8Bytes (s : String) : List Nat := (s.toList.map (fun c => utf8Char c.toNat)).flatten

/-- Reduction to a 32-bit word. -/
def w32 (n : Nat) : Nat := n % 4294967296

/-- Left-rotation of a 32-bit word by `s` places. -/
def rotl32 (x s : Nat) : Nat := w32 (x * 2 ^ s + x / 2 ^ (32 - s))

/-- MD5 round function F. -/
def mdF (b c d : Nat) : Nat := (b &&& c) ||| ((4294967295 - w32 b) &&& d)

/-- MD5 round function G. -/
def mdG (b c d : Nat) : Nat := (b &&& d) ||| (c &&& (4294967295 - w32 d))

/-- MD5 round function H. -/
def mdH (b c d : Nat) : Nat := b ^^^ c ^^^ d

/-- MD5 round function I. -/
def mdI (b c d : Nat) : Nat := c ^^^ (b ||| (4294967295 - w32 d))

/-- The 64 MD5 sine constants `T[i] = floor(2^32 * |sin(i+1)|)`. -/
def mdT : List Nat :=
  [0xd76aa478, 0xe8c7b756, 0x242070db, 0xc1bdceee,
   0xf57c0faf, 0x4787c62a, 0xa8304613, 0xfd469501,
   0x698098d8, 0x8b44f7af, 0xffff5bb1, 0x895cd7be,
   0x6b901122, 0xfd987193, 0xa679438e, 0x49b40821,
   0xf61e2562, 0xc040b340, 0x265e5a51, 0xe9b6c7aa,
   0xd62f105d, 0x02441453, 0xd8a1e681, 0xe7d3fbc8,
   0x21e1cde6, 0xc33707d6, 0xf4d50d87, 0x455a14ed,
   0xa9e3e905, 0xfcefa3f8, 0x676f02d9, 0x8d2a4c8a,
   0xfffa3942, 0x8771f681, 0x6d9d6122, 0xfde5380c,
   0xa4beea44, 0x4bdecfa9, 0xf6bb4b60, 0xbebfbc70,
   0x289b7ec6, 0xeaa127fa, 0xd4ef3085, 0x04881d05,
   0xd9d4d039, 0xe6db99e5, 0x1fa27cf8, 0xc4ac5665,
   0xf4292244, 0x432aff97, 0xab9423a7, 0xfc93a039,
   0x655b59c3, 0x8f0ccc92, 0xffeff47d, 0x85845dd1,
   0x6fa87e4f, 0xfe2ce6e0, 0xa3014314, 0x4e0811a1,
   0xf7537e82, 0xbd3af235, 0x2ad7d2bb, 0xeb86d391]

/-- The 64 MD5 per-step left-rotation amounts. -/
def mdS : List Nat :=
  [7, 12, 17, 22, 7, 12, 17, 22, 7, 12, 17, 22, 7, 12, 17, 22,
   5, 9, 14, 20, 5, 9, 14, 20, 5, 9, 14, 20, 5, 9, 14, 20,
   4, 11, 16, 23, 4, 11, 16, 23, 4, 11, 16, 23, 4, 11, 16, 23,
   6, 10, 15, 21, 6, 10, 15, 21, 6, 10, 15, 21, 6, 10, 15, 21]

/-- Which message word step `i` mixes in. -/
def mdIdx (i : Nat) : Nat :=
  if i < 16 then i
  else if i < 32 then (5 * i + 1) % 16
  else if i < 48 then (3 * i + 5) % 16
  else (7 * i) % 16

/-- Which round function step `i` applies. -/
def mdAux (i b c d : Nat) : Nat :=
  if i < 16 then mdF b c d
  else if i < 32 then mdG b c d
  else if i < 48 then mdH b c d
  else mdI b c d

/-- One of the 64 MD5 steps over a 16-word message block `m`. -/
def mdStep (m : List Nat) (st : Nat × Nat × Nat × Nat) (i : Nat) : Nat × Nat × Nat × Nat :=
  match st with
  | (a, b, c, d) =>
    let sum := w32 (a + mdAux i b c d + mdT.getD i 0 + m.getD (mdIdx i) 0)
    (d, w32 (b + rotl32 sum (mdS.getD i 0)), b, c)

/-- Process one 16-word block: 64 steps, then add the block result into the
running state. -/
def mdChunk (st0 : Nat × Nat × Nat × Nat) (m : List Nat) : Nat × Nat × Nat × Nat :=
  match st0, (List.range 64).foldl (mdStep m) st0 with
  | (a0, b0, c0, d0), (a, b, c, d) => (w32 (a0 + a), w32 (b0 + b), w32 (c0 + c), w32 (d0 + d))

/-- A 64-bit value as 8 little-endian bytes. -/
def le8 (n : Nat) : List Nat :=
  [n % 256, n / 256 % 256, n / 65536 % 256, n / 16777216 % 256,
   n / 4294967296 % 256, n / 1099511627776 % 256,
   n / 281474976710656 % 256, n / 72057594037927936 % 256]

/-- MD5 padding: a `0x80` byte, zeros to 56 mod 64, then the bit length as a
64-bit little-endian value. -/
def md5pad (ms : List Nat) : List Nat :=
  ms ++ 128 :: (List.replicate ((119 - ms.length % 64) % 64) 0 ++ le8 (8 * ms.length))

/-- Group four little-endian bytes into each 32-bit word. -/
def toWordsLE : List Nat → List Nat
  | b0 :: b1 :: b2 :: b3 :: rest => (b0 + 256 * b1 + 65536 * b2 + 16777216 * b3) :: toWordsLE rest
  | _ => []

/-- Split a word list into 16-word blocks. -/
def chunksOf16 (l : List Nat) : List (List Nat) :=
  if h : l = [] then [] else l.take 16 :: chunksOf16 (l.drop 16)
termination_by l.length
decreasing_by
  simp only [List.length_drop]
  have h1 : 0 < l.length := List.length_pos.mpr h
  omega

/-- A 32-bit word as 4 little-endian bytes. -/
def wordLE (w : Nat) : List Nat := [w % 256, w / 256 % 256, w / 65536 % 256, w / 16777216 % 256]

/-- The 16-byte MD5 digest of a byte list (RFC 1321). -/
def md5Bytes (ms : List Nat) : List Nat :=
  let st := (chunksOf16 (toWordsLE (md5pad ms))).foldl mdChunk
    (1732584193, 4023233417, 2562383102, 271733878)
  wordLE st.1 ++ wordLE st.2.1 ++ wordLE st.2.2.1 ++ wordLE st.2.2.2

/-- A byte as two lowercase hexadecimal characters. -/
def byteHex (b : Nat) : List Char := [hexDigitChar (b / 16 % 16), hexDigitChar (b % 16)]

/-- `.hexdigest()`: the digest bytes as lowercase hexadecimal text. -/
def hexDigest (bs : List Nat) : String := List.asString ((bs.map byteHex).flatten)

namespace ApiHandler

/-- `api_handler.py` line 81 (`get_usgs_json_data`):
`url_hash = hashlib.md5(url.encode('utf-8')).hexdigest()`. -/
def url_hash_json (url : String) : String := hexDigest (md5Bytes (utf8Bytes url))

/-- `api_handler.py` line 141 (`get_usgs_rdb_data`):
`url_hash = hashlib.md5(url.encode('utf-8')).hexdigest()`. -/
def url_hash_rdb (url : String) : String := hexDigest (md5Bytes (utf8Bytes url))

/-- Line 84: the JSON cache file is named `f"{url_hash}.json"`. -/
def json_cache_basename (url : String) : String := url_hash_json url ++ ".json"

/-- Line 145: the RDB cache file is named `f"{url_hash}.rdb"`. -/
def rdb_cache_basename (url : String) : String := url_hash_rdb url ++ ".rdb"

end ApiHandler

/-! ## Shared predicates and evaluation lemmas -/

/-- A 2xx (success) status code. -/
def is2xx (status : Nat) : Prop := 200 ≤ status ∧ status < 300

/-- The network outcomes the miss branch treats as failure: a transport
exception from `requests.get`, or a completed response whose status makes
`raise_for_status` raise. -/
def Net.failed : Net → Prop
  | .exn => True
  | .success status _ => badStatus status

/-- No cache file the JSON hit branch can use: the file is absent, unreadable,
or its content does not decode as JSON. -/
def FS.noReadableJson (fs : FS) : Prop :=
  match fs.file with
  | none => True
  | some .unreadable => True
  | some (.readable s) => json_load s = none

/-- No cache file the RDB hit branch can use: the file is absent, unreadable,
or its content does not parse. -/
def FS.noReadableRdb (fs : FS) : Prop :=
  match fs.file with
  | none => True
  | some .unreadable => True
  | some (.readable s) => rdb_decode s = none

theorem is2xx_not_bad {status : Nat} (h : is2xx status) : ¬ badStatus status := by
  rcases h with ⟨h1, h2⟩
  intro hb
  rcases hb with ⟨h3, _⟩
  omega

theorem rdb_hit_fallthrough (net : Net) (fs : FS) (h : fs.noReadableRdb) :
    ApiHandler.get_usgs_rdb_data net fs = ApiHandler.rdbFetchMiss net fs := by
  rcases fs with ⟨d, f⟩
  rcases f with _ | cf
  · rfl
  · rcases cf with s | _
    · have h2 : rdb_decode s = none := h
      simp [ApiHandler.get_usgs_rdb_data, h2]
    · rfl

theorem json_hit_fallthrough (net : Net) (fs : FS) (h : fs.noReadableJson) :
    ApiHandler.get_usgs_json_data net fs = ApiHandler.jsonFetchMiss net fs := by
  rcases fs with ⟨d, f⟩
  rcases f with _ | cf
  · rfl
  · rcases cf with s | _
    · have h2 : json_load s = none := h
      simp [ApiHandler.get_usgs_json_data, h2]
    · rfl

theorem rdbFetchMiss_failed (net : Net) (fs : FS) (h : net.failed) :
    ApiHandler.rdbFetchMiss net fs = (.retNone, fs) := by
  cases net with
  | exn => rfl
  | success status body =>
    have hb : badStatus status := h
    simp [ApiHandler.rdbFetchMiss, hb]

theorem jsonFetchMiss_failed (net : Net) (fs : FS) (h : net.failed) :
    ApiHandler.jsonFetchMiss net fs = (.retNone, fs) := by
  cases net with
  | exn => rfl
  | success status body =>
    have hb : badStatus status := h
    simp [ApiHandler.jsonFetchMiss, hb]

/-! ## Claim C2 -/

/-- C2 counterexample.  The claim says every non-2xx status yields the absence
signal with no cache write, but `raise_for_status` only raises for statuses in
`[400, 600)`: on a status-300 response with a decodable body the JSON fetcher
decodes, caches and returns the payload. -/
theorem claim_C2_counterexample :
    ¬ is2xx 300 ∧
    (ApiHandler.get_usgs_json_data (Net.success 300 "\x7b\x7d") ⟨true, none⟩).1 ≠ Res.retNone ∧
    (ApiHandler.get_usgs_json_data (Net.success 300 "\x7b\x7d") ⟨true, none⟩).2.file ≠ none := by
  have hev : ApiHandler.get_usgs_json_data (Net.success 300 "\x7b\x7d") ⟨true, none⟩ =
      (Res.val (.obj .nil), ⟨true, some (.readable (json_encode (.obj .nil)))⟩) := rfl
  refine ⟨fun h => by rcases h with ⟨_, h2⟩; omega, ?_, ?_⟩ <;> rw [hev] <;> simp

/-- C2 (amended): when no readable cache file exists and `requests.get` either
raises a transport exception or returns a 4xx/5xx status (the statuses
`raise_for_status` treats as failure — not every non-2xx status), both
fetchers return `None`, create no cache file, leave the filesystem state
unchanged, and raise nothing to the caller. -/
theorem claim_C2_failure_atomicity (net : Net) (fs : FS) (hnet : net.failed) :
    (fs.noReadableJson → ApiHandler.get_usgs_json_data net fs = (Res.retNone, fs)) ∧
    (fs.noReadableRdb → ApiHandler.get_usgs_rdb_data net fs = (Res.retNone, fs)) := by
  constructor
  · intro h
    rw [json_hit_fallthrough net fs h, jsonFetchMiss_failed net fs hnet]
  · intro h
    rw [rdb_hit_fallthrough net fs h, rdbFetchMiss_failed net fs hnet]

/-- C2 witness: a mocked status-500 response on an empty cache yields `None`
from both fetchers and leaves the state untouched. -/
theorem claim_C2_witness :
    Net.failed (Net.success 500 "Server Error") ∧
    FS.noReadableJson ⟨true, none⟩ ∧
    FS.noReadableRdb ⟨true, none⟩ ∧
    ApiHandler.get_usgs_json_data (Net.success 500 "Server Error") ⟨true, none⟩ =
      (Res.retNone, ⟨true, none⟩) ∧
    ApiHandler.get_usgs_rdb_data (Net.success 500 "Server Error") ⟨true, none⟩ =
      (Res.retNone, ⟨true, none⟩) := by
  have hnet : Net.failed (Net.success 500 "Server Error") := by
    show badStatus 500
    constructor <;> omega
  have h := claim_C2_failure_atomicity (Net.success 500 "Server Error") ⟨true, none⟩ hnet
  exact ⟨hnet, trivial, trivial, h.1 trivial, h.2 trivial⟩

/-! ## Claim C3 -/

/-- C3: for any 2xx response body whose table parses, the miss path returns
that table and writes the body to the cache file, and a subsequent call (any
network outcome) takes the hit path on that file and returns the very same
table — both paths run the same comment-skipping, double-header-stripping
decode. -/
theorem claim_C3_hit_miss_equiv (status : Nat) (body : String) (fs : FS) (net2 : Net)
    (hmiss : fs.file = none) (h2 : is2xx status) (t : RTable)
    (hdec : rdb_decode body = some t) :
    ApiHandler.get_usgs_rdb_data (Net.success status body) fs =
      (Res.val t, ⟨true, some (.readable body)⟩) ∧
    ApiHandler.get_usgs_rdb_data net2 ⟨true, some (.readable body)⟩ =
      (Res.val t, ⟨true, some (.readable body)⟩) := by
  have hnb := is2xx_not_bad h2
  constructor
  · rcases fs with ⟨d, f⟩
    cases hmiss
    simp [ApiHandler.get_usgs_rdb_data, ApiHandler.rdbFetchMiss, hnb, hdec]
  · simp [ApiHandler.get_usgs_rdb_data, hdec]

/-- C3 witness at a concrete RDB body. -/
theorem claim_C3_witness :
    FS.file ⟨false, none⟩ = none ∧ is2xx 200 ∧
    rdb_decode "# c\nA\tB\n8s\t8s\nx\ty\n" = some ⟨["A", "B"], [["x", "y"]]⟩ ∧
    ApiHandler.get_usgs_rdb_data (Net.success 200 "# c\nA\tB\n8s\t8s\nx\ty\n") ⟨false, none⟩ =
      (Res.val ⟨["A", "B"], [["x", "y"]]⟩, ⟨true, some (.readable "# c\nA\tB\n8s\t8s\nx\ty\n")⟩) ∧
    ApiHandler.get_usgs_rdb_data Net.exn ⟨true, some (.readable "# c\nA\tB\n8s\t8s\nx\ty\n")⟩ =
      (Res.val ⟨["A", "B"], [["x", "y"]]⟩, ⟨true, some (.readable "# c\nA\tB\n8s\t8s\nx\ty\n")⟩) := by
  have h2 : is2xx 200 := by constructor <;> omega
  have hd : rdb_decode "# c\nA\tB\n8s\t8s\nx\ty\n" = some ⟨["A", "B"], [["x", "y"]]⟩ := by rfl
  have h := claim_C3_hit_miss_equiv 200 "# c\nA\tB\n8s\t8s\nx\ty\n" ⟨false, none⟩ Net.exn rfl h2
    ⟨["A", "B"], [["x", "y"]]⟩ hd
  exact ⟨rfl, h2, hd, h.1, h.2⟩

/-! ## Claim C7 -/

/-- C7: the claim (and the spec's Persist step) says both fetchers create all
missing parent directories of the cache path before writing.  The RDB fetcher
does (`os.makedirs` at `api_handler.py` lines 167-173), but the JSON
fetcher's persist step (lines 106-110) has no directory creation at all: with
the cache directory absent, `open(cache_filename, 'w')` raises
`FileNotFoundError`, which the `except RequestException` clause does not
catch.  (The stray debug print `"Here is your issue", cache_filename` at line
108 records the author hitting exactly this failure.)  This theorem evaluates
both fetchers on the same absent-directory state after a 2xx fetch: the RDB
fetcher creates the directory and succeeds, the JSON fetcher raises. -/
theorem claim_C7_persist_no_makedirs :
    ApiHandler.get_usgs_json_data (Net.success 200 "\x7b\"a\": 1\x7d") ⟨false, none⟩ =
      (Res.raised, ⟨false, none⟩) ∧
    ApiHandler.get_usgs_rdb_data (Net.success 200 "A\tB\n8s\t8s\nx\ty\n") ⟨false, none⟩ =
      (Res.val ⟨["A", "B"], [["x", "y"]]⟩, ⟨true, some (.readable "A\tB\n8s\t8s\nx\ty\n")⟩) :=
  ⟨rfl, rfl⟩

/-! ## Claim C8 -/

/-- C8: the claim (and both docstrings: "... or None if an error occurs")
says the fetchers always return a payload or `None`.  But the miss branch
catches only `requests.exceptions.RequestException`: a pandas failure while
parsing a successfully fetched RDB body (here `EmptyDataError` on an
all-comment body) escapes the RDB fetcher, and a cache-write failure (absent
cache directory) escapes the JSON fetcher.  This theorem evaluates both
failing runs. -/
theorem claim_C8_exception_escapes :
    ApiHandler.get_usgs_rdb_data (Net.success 200 "# USGS comments only\n") ⟨true, none⟩ =
      (Res.raised, ⟨true, some (.readable "# USGS comments only\n")⟩) ∧
    ApiHandler.get_usgs_json_data (Net.success 200 "\x7b\"b\": 2\x7d") ⟨false, none⟩ =
      (Res.raised, ⟨false, none⟩) :=
  ⟨rfl, rfl⟩

/-! ## Claim C9 -/

/-- C9: in `site_info.py` the cache path is the fixed constant
`CACHE_FILENAME`, not derived from the URL, and on the cache-hit path the
result of `get_usgs_rdb_data(url, cache_file)` does not depend on `url` at
all: two calls with arbitrary (in particular, distinct) URLs against the same
existing, parseable cache file return the identical table.  Site queries with
different URLs silently collide on the one cache file. -/
theorem claim_C9_site_cache_collision (u1 u2 cache_file : String) (netOf : String → Net)
    (fs : FS) (s : String) (t : RTable)
    (hfile : fs.file = some (.readable s)) (hdec : rdb_decode s = some t) :
    SiteInfo.CACHE_FILENAME = "data/usgs_sitedata.rdb" ∧
    SiteInfo.get_usgs_rdb_data u1 cache_file netOf fs = (Res.val t, fs) ∧
    SiteInfo.get_usgs_rdb_data u2 cache_file netOf fs =
      SiteInfo.get_usgs_rdb_data u1 cache_file netOf fs := by
  rcases fs with ⟨d, f⟩
  cases hfile
  refine ⟨rfl, ?_, ?_⟩ <;> simp [SiteInfo.get_usgs_rdb_data, hdec]

/-- C9 witness: two distinct site-query URLs, one pre-existing cache file,
identical returned tables. -/
theorem claim_C9_witness :
    (FS.file ⟨true, some (.readable "s\tn\n5s\t3s\nA\t1\n")⟩ =
      some (.readable "s\tn\n5s\t3s\nA\t1\n")) ∧
    rdb_decode "s\tn\n5s\t3s\nA\t1\n" = some ⟨["s", "n"], [["A", "1"]]⟩ ∧
    SiteInfo.get_usgs_rdb_data "https://api/?sites=01"
        SiteInfo.CACHE_FILENAME (fun _ => Net.exn)
        ⟨true, some (.readable "s\tn\n5s\t3s\nA\t1\n")⟩ =
      (Res.val ⟨["s", "n"], [["A", "1"]]⟩, ⟨true, some (.readable "s\tn\n5s\t3s\nA\t1\n")⟩) ∧
    SiteInfo.get_usgs_rdb_data "https://api/?sites=02"
        SiteInfo.CACHE_FILENAME (fun _ => Net.exn)
        ⟨true, some (.readable "s\tn\n5s\t3s\nA\t1\n")⟩ =
      SiteInfo.get_usgs_rdb_data "https://api/?sites=01"
        SiteInfo.CACHE_FILENAME (fun _ => Net.exn)
        ⟨true, some (.readable "s\tn\n5s\t3s\nA\t1\n")⟩ := by
  have hd : rdb_decode "s\tn\n5s\t3s\nA\t1\n" = some ⟨["s", "n"], [["A", "1"]]⟩ := by rfl
  have h := claim_C9_site_cache_collision "https://api/?sites=01" "https://api/?sites=02"
    SiteInfo.CACHE_FILENAME (fun _ => Net.exn)
    ⟨true, some (.readable "s\tn\n5s\t3s\nA\t1\n")⟩ "s\tn\n5s\t3s\nA\t1\n"
    ⟨["s", "n"], [["A", "1"]]⟩ rfl hd
  exact ⟨rfl, hd, h.2.1, h.2.2⟩

/-! ## Claim C10 -/

/-- C10: on the RDB miss path with a 2xx response, the raw response text is
written to the cache file before any parse of it is attempted: whatever
`rdb_decode` does with the body, the post-state holds the body at the cache
path; and when the parse of the just-fetched body fails, the call raises
(the pandas error is no `RequestException`) yet still leaves the unparseable
body behind as an existing cache entry for later calls to find. -/
theorem claim_C10_persist_precedes_decode (status : Nat) (body : String) (fs : FS)
    (hmiss : fs.file = none) (h2 : is2xx status) :
    (ApiHandler.get_usgs_rdb_data (Net.success status body) fs).2.file =
      some (.readable body) ∧
    (rdb_decode body = none →
      ApiHandler.get_usgs_rdb_data (Net.success status body) fs =
        (Res.raised, ⟨true, some (.readable body)⟩)) := by
  have hnb := is2xx_not_bad h2
  rcases fs with ⟨d, f⟩
  cases hmiss
  constructor
  · simp only [ApiHandler.get_usgs_rdb_data, ApiHandler.rdbFetchMiss, if_neg hnb]
    cases hdec : rdb_decode body <;> simp
  · intro hdec
    simp [ApiHandler.get_usgs_rdb_data, ApiHandler.rdbFetchMiss, hnb, hdec]

/-- C10 witness: a 2xx body that fails to parse is still persisted, and the
call raises. -/
theorem claim_C10_witness :
    FS.file ⟨true, none⟩ = none ∧ is2xx 200 ∧ rdb_decode "#x\n" = none ∧
    ApiHandler.get_usgs_rdb_data (Net.success 200 "#x\n") ⟨true, none⟩ =
      (Res.raised, ⟨true, some (.readable "#x\n")⟩) := by
  have h2 : is2xx 200 := by constructor <;> omega
  have h := claim_C10_persist_precedes_decode 200 "#x\n" ⟨true, none⟩ rfl h2
  exact ⟨rfl, h2, rfl, h.2 rfl⟩

/-! ## Claim C1 -/

/-- C1: when a cache file exists for the JSON fetcher but is corrupt (its
content does not decode) or unreadable (reading raises `IOError`), the error
is caught (only a warning is printed), the call falls through to the network,
and on a 2xx response with a decodable body it overwrites the cache file with
the re-encoded decoded payload and returns that payload — the cache error is
never surfaced.  `hdir` records the filesystem invariant that an existing
cache file sits inside an existing cache directory, so the overwrite
succeeds. -/
theorem claim_C1_corrupt_cache_recovery (status : Nat) (body s : String) (fs : FS)
    (v : JValue)
    (hfile : fs.file = some (.readable s) ∧ json_load s = none ∨
      fs.file = some CFile.unreadable)
    (hdir : fs.dirExists = true) (h2 : is2xx status) (hdec : json_load body = some v) :
    ApiHandler.get_usgs_json_data (Net.success status body) fs =
      (Res.val v, ⟨true, some (.readable (json_encode v))⟩) := by
  have hnb := is2xx_not_bad h2
  rcases fs with ⟨d, f⟩
  cases hdir
  rcases hfile with ⟨hf, hbad⟩ | hf
  · cases hf
    simp [ApiHandler.get_usgs_json_data, ApiHandler.jsonFetchMiss, hnb, hdec, hbad]
  · cases hf
    simp [ApiHandler.get_usgs_json_data, ApiHandler.jsonFetchMiss, hnb, hdec]

/-- C1 witness: a cache file holding invalid JSON text is recovered from by a
mocked 2xx fetch that overwrites it. -/
theorem claim_C1_witness :
    (FS.file ⟨true, some (.readable "not json")⟩ = some (.readable "not json") ∧
      json_load "not json" = none) ∧
    FS.dirExists ⟨true, some (.readable "not json")⟩ = true ∧
    is2xx 200 ∧
    json_load "\x7b\"ok\": true\x7d" = some (.obj (.cons "ok".toList (.bool true) .nil)) ∧
    ApiHandler.get_usgs_json_data (Net.success 200 "\x7b\"ok\": true\x7d")
        ⟨true, some (.readable "not json")⟩ =
      (Res.val (.obj (.cons "ok".toList (.bool true) .nil)),
       ⟨true, some (.readable (json_encode (.obj (.cons "ok".toList (.bool true) .nil))))⟩) := by
  have h2 : is2xx 200 := by constructor <;> omega
  have hbad : json_load "not json" = none := by rfl
  have hdec : json_load "\x7b\"ok\": true\x7d" =
      some (.obj (.cons "ok".toList (.bool true) .nil)) := by rfl
  have h := claim_C1_corrupt_cache_recovery 200 "\x7b\"ok\": true\x7d" "not json"
    ⟨true, some (.readable "not json")⟩ (.obj (.cons "ok".toList (.bool true) .nil))
    (Or.inl ⟨rfl, hbad⟩) rfl h2 hdec
  exact ⟨⟨rfl, hbad⟩, rfl, h2, hdec, h⟩

/-! ## Claim C4 -/

/-- The decode exactly as claim C4 words it: parse the text as tab-separated
rows while skipping (whole) lines that begin with `#` (and blank lines), then
drop the first data row (the width-specification second header) and renumber
the remaining rows contiguously from zero. -/
def rdb_skiplines_decode (text : String) : Option RTable :=
  match (splitOnChar '\n' text.toList).filter
      (fun l => match l with | [] => false | c :: _ => c ≠ '#') with
  | [] => none
  | h :: rest =>
    match normalizeRows (tabFields h).length rest with
    | none => none
    | some rs => some ⟨tabFields h, rs.drop 1⟩

/-- The decode as amended: as `rdb_skiplines_decode`, except that every line
is truncated at its first `#` (pandas `comment='#'` discards the rest of any
line containing the marker, not only whole lines beginning with it), lines
left empty being dropped. -/
def rdb_trunc_decode (text : String) : Option RTable :=
  match (splitOnChar '\n' text.toList).filterMap
      (fun l => if stripComment l = [] then none else some (stripComment l)) with
  | [] => none
  | h :: rest =>
    match normalizeRows (tabFields h).length rest with
    | none => none
    | some rs => some ⟨tabFields h, rs.drop 1⟩

theorem filter_strip_eq_filterMap (ls : List (List Char)) :
    (ls.map stripComment).filter (fun l => l ≠ []) =
      ls.filterMap (fun l => if stripComment l = [] then none else some (stripComment l)) := by
  induction ls with
  | nil => rfl
  | cons a tl ih =>
    rw [List.map_cons, List.filter_cons, List.filterMap_cons]
    by_cases h : stripComment a = []
    · rw [if_pos h, if_neg (by simp [h])]
      exact ih
    · rw [if_neg h, if_pos (by simp [h])]
      exact congrArg _ ih

/-- C4 counterexample: on a body whose third line holds an interior `#`
(`x#q<TAB>y`), the fetchers' decode (pandas truncates the line to `x`) differs
from the claim's "skip lines beginning with '#'" decode (which keeps the whole
line). -/
theorem claim_C4_counterexample :
    rdb_decode "A\tB\n8s\t8s\nx#q\ty\nz\tw" ≠
      rdb_skiplines_decode "A\tB\n8s\t8s\nx#q\ty\nz\tw" := by
  decide

/-- C4 (amended): for every text, the decoded result equals parsing the text
as tab-separated rows while truncating each line at its first `#` (not merely
skipping lines that begin with one), then dropping the first data row and
renumbering contiguously from zero; in particular a body with a name header
row, one width-spec row and two data rows decodes to exactly two rows. -/
theorem claim_C4_decode (text : String) :
    rdb_decode text = rdb_trunc_decode text ∧
    (rdb_decode "A\tB\n8s\t8s\nr1a\tr1b\nr2a\tr2b").map (fun t => t.rows.length) =
      some 2 := by
  constructor
  · unfold rdb_decode rdb_read rdb_trunc_decode effLines
    rw [filter_strip_eq_filterMap]
    cases hk : (splitOnChar '\n' text.toList).filterMap
        (fun l => if stripComment l = [] then none else some (stripComment l)) with
    | nil => rfl
    | cons hd tl =>
      cases hm : normalizeRows (tabFields hd).length tl <;> simp [hm]
  · rfl

/-! ## Claim C6 -/

theorem hexDigitChar_mem (n : Nat) : hexDigitChar n ∈ hexChars := by
  unfold hexDigitChar
  by_cases h : n < hexChars.length
  · rw [List.getD_eq_getElem hexChars 'f' h]
    exact List.getElem_mem h
  · rw [List.getD_eq_default hexChars 'f' (by omega)]
    decide

theorem md5Bytes_length (ms : List Nat) : (md5Bytes ms).length = 16 := by
  simp [md5Bytes, wordLE]

theorem flatten_byteHex_length (bs : List Nat) :
    ((bs.map byteHex).flatten).length = 2 * bs.length := by
  induction bs with
  | nil => rfl
  | cons b tl ih =>
    simp only [List.map_cons, List.flatten_cons, List.length_append, List.length_cons, ih,
      byteHex, List.length_nil]
    omega

theorem hexDigest_length (bs : List Nat) : (hexDigest bs).length = 2 * bs.length := by
  show ((bs.map byteHex).flatten).length = 2 * bs.length
  exact flatten_byteHex_length bs

theorem hexDigest_mem (bs : List Nat) (c : Char) (hc : c ∈ (hexDigest bs).toList) :
    c ∈ hexChars := by
  have h2 : c ∈ (bs.map byteHex).flatten := hc
  rcases List.mem_flatten.mp h2 with ⟨l, hl, hcl⟩
  rcases List.mem_map.mp hl with ⟨b, _, rfl⟩
  simp only [byteHex, List.mem_cons, List.not_mem_nil, or_false] at hcl
  rcases hcl with rfl | rfl <;> exact hexDigitChar_mem _

theorem hex_chars_not_reserved :
    ∀ c ∈ hexChars, c ≠ '/' ∧ c ≠ backslashC ∧ c ≠ '.' := by
  decide

/-- C6: the cache key both fetchers derive is `md5(url.encode('utf-8'))` in
hexadecimal — a pure function in the model, so free of I/O and side effects
by construction.  The two derivations (JSON fetcher line 81, RDB fetcher line
141) agree on every URL; the key is determined by the URL's UTF-8 bytes
alone; it is exactly 32 lowercase hexadecimal characters (a 128-bit digest);
and none of its characters is a path separator or other reserved filesystem
character. -/
theorem claim_C6_cache_key (url : String) :
    ApiHandler.url_hash_json url = ApiHandler.url_hash_rdb url ∧
    (∀ u2 : String, utf8Bytes url = utf8Bytes u2 →
      ApiHandler.url_hash_json url = ApiHandler.url_hash_json u2) ∧
    (ApiHandler.url_hash_json url).length = 32 ∧
    (∀ c ∈ (ApiHandler.url_hash_json url).toList, c ∈ hexChars) ∧
    (∀ c ∈ (ApiHandler.url_hash_json url).toList, c ≠ '/' ∧ c ≠ backslashC ∧ c ≠ '.') := by
  refine ⟨rfl, ?_, ?_, ?_, ?_⟩
  · intro u2 h
    unfold ApiHandler.url_hash_json
    rw [h]
  · show (hexDigest (md5Bytes (utf8Bytes url))).length = 32
    rw [hexDigest_length, md5Bytes_length]
  · intro c hc
    exact hexDigest_mem _ c hc
  · intro c hc
    exact hex_chars_not_reserved c (hexDigest_mem _ c hc)

/-- C6 witness at a concrete URL (the determinism conjunct instantiated with
the URL itself). -/
theorem claim_C6_witness :
    ApiHandler.url_hash_json "https://waterservices.usgs.gov/nwis/dv/?format=json" =
      ApiHandler.url_hash_rdb "https://waterservices.usgs.gov/nwis/dv/?format=json" ∧
    ApiHandler.url_hash_json "https://waterservices.usgs.gov/nwis/dv/?format=json" =
      ApiHandler.url_hash_json "https://waterservices.usgs.gov/nwis/dv/?format=json" ∧
    (ApiHandler.url_hash_json "https://waterservices.usgs.gov/nwis/dv/?format=json").length =
      32 := by
  have h := claim_C6_cache_key "https://waterservices.usgs.gov/nwis/dv/?format=json"
  exact ⟨h.1, h.2.1 "https://waterservices.usgs.gov/nwis/dv/?format=json" rfl, h.2.2.1⟩

/-! ## Round trip of the JSON encode and decode

These lemmas establish that `json.load` reads back exactly the value
`json.dump(..., indent=4)` wrote — the key fact behind the cache-hit path
returning the payload the miss path persisted. -/

mutual
/-- Fuel adequate to parse an encoded value. -/
def sizeV : JValue → Nat
  | .null => 1
  | .bool _ => 1
  | .num _ => 1
  | .str _ => 1
  | .arr xs => sizeA xs + 1
  | .obj kvs => sizeO kvs + 1
/-- Fuel adequate to parse encoded array items. -/
def sizeA : JArr → Nat
  | .nil => 1
  | .cons v tl => sizeV v + sizeA tl + 1
/-- Fuel adequate to parse encoded object members. -/
def sizeO : JObj → Nat
  | .nil => 1
  | .cons _ v tl => sizeV v + sizeO tl + 1
end

/-- A suffix a number literal may legally run into: empty, or starting with a
non-digit. -/
def headNotDigit : List Char → Prop
  | [] => True
  | c :: _ => isDigitC c = false

theorem digit_ne {c : Char} (h : isDigitC c = true) {d : Char}
    (hd : isDigitC d = false) : c ≠ d := by
  intro heq
  rw [heq, hd] at h
  exact Bool.false_ne_true h

theorem digit_not_ws {c : Char} (h : isDigitC c = true) : isWsC c = false := by
  cases hw : isWsC c with
  | false => rfl
  | true =>
    exfalso
    unfold isWsC at hw
    simp only [Bool.or_eq_true, decide_eq_true_eq] at hw
    rcases hw with ((rfl | rfl) | rfl) | rfl <;> exact absurd h (by decide)

theorem skipWs_cons_nws {c : Char} (cs : List Char) (h : isWsC c = false) :
    skipWs (c :: cs) = c :: cs := by
  simp [skipWs, List.dropWhile_cons, h]

theorem skipWs_cons_ws {c : Char} (cs : List Char) (h : isWsC c = true) :
    skipWs (c :: cs) = skipWs cs := by
  simp [skipWs, List.dropWhile_cons, h]

theorem skipWs_pad (n : Nat) (cs : List Char) : skipWs (pad n ++ cs) = skipWs cs := by
  induction n with
  | zero => rfl
  | succ m ih =>
    rw [pad, List.replicate_succ, List.cons_append, skipWs_cons_ws _ (by decide)]
    exact ih

theorem digitCharOf_toNat {d : Nat} (h : d < 10) : (digitCharOf d).toNat = 48 + d := by
  interval_cases d <;> rfl

theorem digitCharOf_digit {d : Nat} (h : d < 10) : isDigitC (digitCharOf d) = true := by
  interval_cases d <;> rfl

theorem natDigits_digits (n : Nat) : ∀ c ∈ natDigits n, isDigitC c = true := by
  intro c hc
  unfold natDigits at hc
  by_cases h : n = 0
  · rw [if_pos h] at hc
    simp only [List.mem_singleton] at hc
    subst hc
    rfl
  · rw [if_neg h] at hc
    rw [List.mem_reverse] at hc
    rcases List.mem_map.mp hc with ⟨d, hd, rfl⟩
    exact digitCharOf_digit (Nat.digits_lt_base (by omega) hd)

theorem natDigits_ne_nil (n : Nat) : natDigits n ≠ [] := by
  unfold natDigits
  by_cases h : n = 0
  · rw [if_pos h]
    simp
  · rw [if_neg h]
    simp only [ne_eq, List.reverse_eq_nil_iff, List.map_eq_nil_iff]
    exact Nat.digits_ne_nil_iff_ne_zero.mpr h

theorem foldl_digits (ds : List Nat) (hds : ∀ d ∈ ds, d < 10) (acc : Nat) :
    ((ds.map digitCharOf).reverse).foldl (fun a c => a * 10 + (c.toNat - 48)) acc =
      acc * 10 ^ ds.length + Nat.ofDigits 10 ds := by
  induction ds generalizing acc with
  | nil => simp
  | cons d tl ih =>
    have hd : d < 10 := hds d (List.mem_cons_self d tl)
    have htl : ∀ x ∈ tl, x < 10 := fun x hx => hds x (List.mem_cons_of_mem d hx)
    rw [List.map_cons, List.reverse_cons, List.foldl_append, ih htl acc]
    simp only [List.foldl_cons, List.foldl_nil, digitCharOf_toNat hd, Nat.ofDigits_cons,
      List.length_cons]
    ring_nf
    omega

theorem digitsToNat_natDigits (n : Nat) : digitsToNat (natDigits n) = n := by
  unfold natDigits digitsToNat
  by_cases h : n = 0
  · rw [if_pos h]
    subst h
    rfl
  · rw [if_neg h]
    rw [foldl_digits _ (fun d hd => Nat.digits_lt_base (by omega) hd) 0]
    simp [Nat.ofDigits_digits]

theorem takeWhile_digits_append (ds rest : List Char)
    (hds : ∀ c ∈ ds, isDigitC c = true) (hrest : headNotDigit rest) :
    (ds ++ rest).takeWhile isDigitC = ds ∧ (ds ++ rest).dropWhile isDigitC = rest := by
  induction ds with
  | nil =>
    simp only [List.nil_append]
    cases rest with
    | nil => exact ⟨rfl, rfl⟩
    | cons c tl =>
      have hc : isDigitC c = false := hrest
      simp [List.takeWhile_cons, List.dropWhile_cons, hc]
  | cons d tl ih =>
    have hd := hds d (List.mem_cons_self d tl)
    have h2 := ih (fun c hc => hds c (List.mem_cons_of_mem d hc))
    simp [List.takeWhile_cons, List.dropWhile_cons, hd, h2.1, h2.2]

theorem parseNat_natDigits (n : Nat) (rest : List Char) (hrest : headNotDigit rest) :
    parseNat (natDigits n ++ rest) = some (n, rest) := by
  obtain ⟨ht, hdr⟩ := takeWhile_digits_append (natDigits n) rest (natDigits_digits n) hrest
  unfold parseNat
  rw [ht, hdr]
  cases hnd : natDigits n with
  | nil => exact absurd hnd (natDigits_ne_nil n)
  | cons c tl =>
    show some (digitsToNat (c :: tl), rest) = some (n, rest)
    rw [← hnd, digitsToNat_natDigits]

theorem psb_close (rest : List Char) : parseStrBody (quoteC :: rest) = some ([], rest) := by
  conv_lhs => rw [parseStrBody.eq_def]
  dsimp only []
  rw [if_pos rfl]

theorem psb_plain (c : Char) (rest : List Char) (h1 : c ≠ quoteC) (h2 : c ≠ backslashC) :
    parseStrBody (c :: rest) =
      match parseStrBody rest with
      | some (s, r) => some (c :: s, r)
      | none => none := by
  conv_lhs => rw [parseStrBody.eq_def]
  dsimp only []
  rw [if_neg h1, if_neg h2]

theorem psb_esc (e : Char) (rest : List Char) (he : e ≠ 'u') :
    parseStrBody (backslashC :: e :: rest) =
      match escChar e with
      | some c2 =>
        match parseStrBody rest with
        | some (s, r) => some (c2 :: s, r)
        | none => none
      | none => none := by
  conv_lhs => rw [parseStrBody.eq_def]
  dsimp only []
  rw [if_neg (show ¬ backslashC = quoteC from by decide), if_pos rfl]
  rw [if_neg he]

theorem psb_u (h1 h2 h3 h4 : Char) (rest : List Char) :
    parseStrBody (backslashC :: 'u' :: h1 :: h2 :: h3 :: h4 :: rest) =
      match hexVal h1, hexVal h2, hexVal h3, hexVal h4 with
      | some a, some b, some c2, some d =>
        if ((a * 16 + b) * 16 + c2) * 16 + d < 55296 then
          match parseStrBody rest with
          | some (s, r) => some (Char.ofNat (((a * 16 + b) * 16 + c2) * 16 + d) :: s, r)
          | none => none
        else none
      | _, _, _, _ => none := by
  conv_lhs => rw [parseStrBody.eq_def]
  dsimp only []
  rw [if_neg (show ¬ backslashC = quoteC from by decide), if_pos rfl]
  rw [if_pos rfl]

theorem hexVal_hexDigitChar {k : Nat} (h : k < 16) : hexVal (hexDigitChar k) = some k := by
  interval_cases k <;> rfl

theorem parseStrBody_encStrChar (c : Char) (tail s r : List Char)
    (ih : parseStrBody tail = some (s, r)) :
    parseStrBody (encStrChar c ++ tail) = some (c :: s, r) := by
  by_cases h1 : c = quoteC
  · subst h1
    rw [show encStrChar quoteC ++ tail = backslashC :: quoteC :: tail from rfl,
      psb_esc _ _ (by decide), show escChar quoteC = some quoteC from rfl, ih]
  · by_cases h2 : c = backslashC
    · subst h2
      rw [show encStrChar backslashC ++ tail = backslashC :: backslashC :: tail from by
          rw [encStrChar, if_neg h1, if_pos rfl]; rfl,
        psb_esc _ _ (by decide), show escChar backslashC = some backslashC from rfl, ih]
    · by_cases h3 : c = '\n'
      · subst h3
        rw [show encStrChar '\n' ++ tail = backslashC :: 'n' :: tail from by
            rw [encStrChar, if_neg h1, if_neg h2]; rfl,
          psb_esc _ _ (by decide), show escChar 'n' = some '\n' from rfl, ih]
      · by_cases h4 : c = '\t'
        · subst h4
          rw [show encStrChar '\t' ++ tail = backslashC :: 't' :: tail from by
              rw [encStrChar, if_neg h1, if_neg h2, if_neg h3, if_pos rfl]; rfl,
            psb_esc _ _ (by decide), show escChar 't' = some '\t' from rfl, ih]
        · by_cases h5 : c = '\r'
          · subst h5
            rw [show encStrChar '\r' ++ tail = backslashC :: 'r' :: tail from by
                rw [encStrChar, if_neg h1, if_neg h2, if_neg h3, if_neg h4, if_pos rfl]; rfl,
              psb_esc _ _ (by decide), show escChar 'r' = some '\r' from rfl, ih]
          · by_cases h6 : c.toNat = 8
            · rw [show encStrChar c ++ tail = backslashC :: 'b' :: tail from by
                  rw [encStrChar, if_neg h1, if_neg h2, if_neg h3, if_neg h4, if_neg h5,
                    if_pos h6]; rfl,
                psb_esc _ _ (by decide), show escChar 'b' = some (Char.ofNat 8) from rfl, ih,
                show (8 : Nat) = c.toNat from h6.symm, Char.ofNat_toNat]
            · by_cases h7 : c.toNat = 12
              · rw [show encStrChar c ++ tail = backslashC :: 'f' :: tail from by
                    rw [encStrChar, if_neg h1, if_neg h2, if_neg h3, if_neg h4, if_neg h5,
                      if_neg h6, if_pos h7]; rfl,
                  psb_esc _ _ (by decide),
                  show escChar 'f' = some (Char.ofNat 12) from rfl, ih,
                  show (12 : Nat) = c.toNat from h7.symm, Char.ofNat_toNat]
              · by_cases h8 : c.toNat < 32
                · rw [show encStrChar c ++ tail = backslashC :: 'u' :: '0' :: '0' ::
                        hexDigitChar (c.toNat / 16) :: hexDigitChar (c.toNat % 16) :: tail from by
                      rw [encStrChar, if_neg h1, if_neg h2, if_neg h3, if_neg h4, if_neg h5,
                        if_neg h6, if_neg h7, if_pos h8]; rfl,
                    psb_u, show hexVal '0' = some 0 from rfl,
                    hexVal_hexDigitChar (show c.toNat / 16 < 16 by omega),
                    hexVal_hexDigitChar (show c.toNat % 16 < 16 by omega)]
                  have harith : ((0 * 16 + 0) * 16 + c.toNat / 16) * 16 + c.toNat % 16 =
                      c.toNat := by omega
                  show (if ((0 * 16 + 0) * 16 + c.toNat / 16) * 16 + c.toNat % 16 < 55296 then
                      match parseStrBody tail with
                      | some (s, r) =>
                        some (Char.ofNat
                          (((0 * 16 + 0) * 16 + c.toNat / 16) * 16 + c.toNat % 16) :: s, r)
                      | none => none
                    else none) = some (c :: s, r)
                  rw [harith, if_pos (show c.toNat < 55296 by omega), ih, Char.ofNat_toNat]
                · rw [show encStrChar c ++ tail = c :: tail from by
                      rw [encStrChar, if_neg h1, if_neg h2, if_neg h3, if_neg h4, if_neg h5,
                        if_neg h6, if_neg h7, if_neg h8]; rfl,
                    psb_plain c tail h1 h2, ih]

theorem parseStrBody_encStrBody (s rest : List Char) :
    parseStrBody (encStrBody s ++ (quoteC :: rest)) = some (s, rest) := by
  induction s with
  | nil => exact psb_close rest
  | cons c cs ih =>
    rw [encStrBody, List.append_assoc]
    exact parseStrBody_encStrChar c _ cs rest ih

theorem pv_null (f : Nat) (cs rest : List Char)
    (h : skipWs cs = 'n' :: 'u' :: 'l' :: 'l' :: rest) :
    parseValue (f + 1) cs = some (JValue.null, rest) := by
  conv_lhs => rw [parseValue.eq_def]
  dsimp only []
  simp only [h, eq_self_iff_true, if_true]

theorem pv_true (f : Nat) (cs rest : List Char)
    (h : skipWs cs = 't' :: 'r' :: 'u' :: 'e' :: rest) :
    parseValue (f + 1) cs = some (JValue.bool true, rest) := by
  conv_lhs => rw [parseValue.eq_def]
  dsimp only []
  simp only [h, eq_false (show ¬ ('t' = 'n') by decide), if_false, eq_self_iff_true, if_true]

theorem pv_false (f : Nat) (cs rest : List Char)
    (h : skipWs cs = 'f' :: 'a' :: 'l' :: 's' :: 'e' :: rest) :
    parseValue (f + 1) cs = some (JValue.bool false, rest) := by
  conv_lhs => rw [parseValue.eq_def]
  dsimp only []
  simp only [h, eq_false (show ¬ ('f' = 'n') by decide),
    eq_false (show ¬ ('f' = 't') by decide), if_false, eq_self_iff_true, if_true]

theorem pv_str (f : Nat) (cs tail s r : List Char)
    (h : skipWs cs = quoteC :: tail) (hs : parseStrBody tail = some (s, r)) :
    parseValue (f + 1) cs = some (JValue.str s, r) := by
  conv_lhs => rw [parseValue.eq_def]
  dsimp only []
  simp only [h, eq_false (show ¬ (quoteC = 'n') by decide),
    eq_false (show ¬ (quoteC = 't') by decide), eq_false (show ¬ (quoteC = 'f') by decide),
    if_false, eq_self_iff_true, if_true, hs]

theorem pv_arr_empty (f : Nat) (cs tail r2 : List Char)
    (h : skipWs cs = '[' :: tail) (h2 : skipWs tail = ']' :: r2) :
    parseValue (f + 1) cs = some (JValue.arr JArr.nil, r2) := by
  conv_lhs => rw [parseValue.eq_def]
  dsimp only []
  simp only [h, eq_false (show ¬ ('[' = 'n') by decide),
    eq_false (show ¬ ('[' = 't') by decide), eq_false (show ¬ ('[' = 'f') by decide),
    eq_false (show ¬ ('[' = quoteC) by decide), if_false, eq_self_iff_true, if_true, h2]

theorem pv_arr_cons (f : Nat) (cs tail r2 rr : List Char) (c2 : Char) (xs : JArr)
    (h : skipWs cs = '[' :: tail) (h2 : skipWs tail = c2 :: r2) (hc2 : c2 ≠ ']')
    (hitems : parseArrItems f (c2 :: r2) = some (xs, rr)) :
    parseValue (f + 1) cs = some (JValue.arr xs, rr) := by
  conv_lhs => rw [parseValue.eq_def]
  dsimp only []
  simp only [h, eq_false (show ¬ ('[' = 'n') by decide),
    eq_false (show ¬ ('[' = 't') by decide), eq_false (show ¬ ('[' = 'f') by decide),
    eq_false (show ¬ ('[' = quoteC) by decide), if_false, eq_self_iff_true, if_true, h2,
    eq_false hc2, hitems]

theorem pv_obj_empty (f : Nat) (cs tail r2 : List Char)
    (h : skipWs cs = lbraceC :: tail) (h2 : skipWs tail = rbraceC :: r2) :
    parseValue (f + 1) cs = some (JValue.obj JObj.nil, r2) := by
  conv_lhs => rw [parseValue.eq_def]
  dsimp only []
  simp only [h, eq_false (show ¬ (lbraceC = 'n') by decide),
    eq_false (show ¬ (lbraceC = 't') by decide), eq_false (show ¬ (lbraceC = 'f') by decide),
    eq_false (show ¬ (lbraceC = quoteC) by decide),
    eq_false (show ¬ (lbraceC = '[') by decide), if_false, eq_self_iff_true, if_true, h2]

theorem pv_obj_cons (f : Nat) (cs tail r2 rr : List Char) (c2 : Char) (kvs : JObj)
    (h : skipWs cs = lbraceC :: tail) (h2 : skipWs tail = c2 :: r2) (hc2 : c2 ≠ rbraceC)
    (hitems : parseObjItems f (c2 :: r2) = some (kvs, rr)) :
    parseValue (f + 1) cs = some (JValue.obj kvs, rr) := by
  conv_lhs => rw [parseValue.eq_def]
  dsimp only []
  simp only [h, eq_false (show ¬ (lbraceC = 'n') by decide),
    eq_false (show ¬ (lbraceC = 't') by decide), eq_false (show ¬ (lbraceC = 'f') by decide),
    eq_false (show ¬ (lbraceC = quoteC) by decide),
    eq_false (show ¬ (lbraceC = '[') by decide), if_false, eq_self_iff_true, if_true, h2,
    eq_false hc2, hitems]

theorem pv_neg (f : Nat) (cs tail r : List Char) (n : Nat)
    (h : skipWs cs = '-' :: tail) (hn : parseNat tail = some (n, r)) :
    parseValue (f + 1) cs = some (JValue.num (-(n : Int)), r) := by
  conv_lhs => rw [parseValue.eq_def]
  dsimp only []
  simp only [h, eq_false (show ¬ ('-' = 'n') by decide),
    eq_false (show ¬ ('-' = 't') by decide), eq_false (show ¬ ('-' = 'f') by decide),
    eq_false (show ¬ ('-' = quoteC) by decide), eq_false (show ¬ ('-' = '[') by decide),
    eq_false (show ¬ ('-' = lbraceC) by decide), if_false, eq_self_iff_true, if_true, hn]

theorem pv_digit (f : Nat) (cs tail r : List Char) (c : Char) (n : Nat)
    (hd : isDigitC c = true) (h : skipWs cs = c :: tail)
    (hn : parseNat (c :: tail) = some (n, r)) :
    parseValue (f + 1) cs = some (JValue.num (n : Int), r) := by
  conv_lhs => rw [parseValue.eq_def]
  dsimp only []
  simp only [h, eq_false (digit_ne hd (show isDigitC 'n' = false by decide)),
    eq_false (digit_ne hd (show isDigitC 't' = false by decide)),
    eq_false (digit_ne hd (show isDigitC 'f' = false by decide)),
    eq_false (digit_ne hd (show isDigitC quoteC = false by decide)),
    eq_false (digit_ne hd (show isDigitC '[' = false by decide)),
    eq_false (digit_ne hd (show isDigitC lbraceC = false by decide)),
    eq_false (digit_ne hd (show isDigitC '-' = false by decide)),
    if_false, hd, eq_self_iff_true, if_true, hn]

theorem pai_last (f : Nat) (cs r r2 : List Char) (v : JValue)
    (hv : parseValue f cs = some (v, r)) (hr : skipWs r = ']' :: r2) :
    parseArrItems (f + 1) cs = some (JArr.cons v JArr.nil, r2) := by
  conv_lhs => rw [parseArrItems.eq_def]
  dsimp only []
  simp only [hv, hr, eq_false (show ¬ (']' = ',') by decide), if_false,
    eq_self_iff_true, if_true]

theorem pai_cons (f : Nat) (cs r r2 r3 : List Char) (v : JValue) (tl : JArr)
    (hv : parseValue f cs = some (v, r)) (hr : skipWs r = ',' :: r2)
    (hrest : parseArrItems f r2 = some (tl, r3)) :
    parseArrItems (f + 1) cs = some (JArr.cons v tl, r3) := by
  conv_lhs => rw [parseArrItems.eq_def]
  dsimp only []
  simp only [hv, hr, eq_self_iff_true, if_true, hrest]

theorem poi_last (f : Nat) (cs tail r1 r2 r3 r4 : List Char) (k : List Char) (v : JValue)
    (h : skipWs cs = quoteC :: tail) (hk : parseStrBody tail = some (k, r1))
    (hc : skipWs r1 = ':' :: r2) (hv : parseValue f r2 = some (v, r3))
    (hr : skipWs r3 = rbraceC :: r4) :
    parseObjItems (f + 1) cs = some (JObj.cons k v JObj.nil, r4) := by
  conv_lhs => rw [parseObjItems.eq_def]
  dsimp only []
  simp only [h, eq_self_iff_true, if_true, hk, hc, hv, hr,
    eq_false (show ¬ (rbraceC = ',') by decide), if_false]

theorem poi_cons (f : Nat) (cs tail r1 r2 r3 r4 r5 : List Char) (k : List Char)
    (v : JValue) (tl : JObj)
    (h : skipWs cs = quoteC :: tail) (hk : parseStrBody tail = some (k, r1))
    (hc : skipWs r1 = ':' :: r2) (hv : parseValue f r2 = some (v, r3))
    (hr : skipWs r3 = ',' :: r4) (hrest : parseObjItems f r4 = some (tl, r5)) :
    parseObjItems (f + 1) cs = some (JObj.cons k v tl, r5) := by
  conv_lhs => rw [parseObjItems.eq_def]
  dsimp only []
  simp only [h, eq_self_iff_true, if_true, hk, hc, hv, hr, hrest]

theorem sizeV_pos (v : JValue) : 1 ≤ sizeV v := by
  cases v <;> simp [sizeV]

theorem encVal_head (v : JValue) (i : Nat) :
    ∃ c tail, encVal i v = c :: tail ∧ isWsC c = false ∧ c ≠ ']' := by
  cases v with
  | null => exact ⟨'n', ['u', 'l', 'l'], rfl, by decide, by decide⟩
  | bool b =>
    cases b with
    | true => exact ⟨'t', ['r', 'u', 'e'], rfl, by decide, by decide⟩
    | false => exact ⟨'f', ['a', 'l', 's', 'e'], rfl, by decide, by decide⟩
  | num n =>
    show ∃ c tail, encInt n = c :: tail ∧ isWsC c = false ∧ c ≠ ']'
    unfold encInt
    by_cases hn : n < 0
    · rw [if_pos hn]
      exact ⟨'-', natDigits n.natAbs, rfl, by decide, by decide⟩
    · rw [if_neg hn]
      cases hnd : natDigits n.natAbs with
      | nil => exact absurd hnd (natDigits_ne_nil _)
      | cons d ds =>
        have hd : isDigitC d = true :=
          natDigits_digits _ d (by rw [hnd]; exact List.mem_cons_self _ _)
        exact ⟨d, ds, rfl, digit_not_ws hd, digit_ne hd (by decide)⟩
  | str s =>
    exact ⟨quoteC, encStrBody s ++ [quoteC], rfl, by decide, by decide⟩
  | arr xs =>
    cases xs with
    | nil => exact ⟨'[', [']'], rfl, by decide, by decide⟩
    | cons x tl => exact ⟨'[', _, rfl, by decide, by decide⟩
  | obj kvs =>
    cases kvs with
    | nil => exact ⟨lbraceC, [rbraceC], rfl, by decide, by decide⟩
    | cons k v tl => exact ⟨lbraceC, _, rfl, by decide, by decide⟩

theorem skipWs_encVal (v : JValue) (i : Nat) (rest : List Char) :
    skipWs (encVal i v ++ rest) = encVal i v ++ rest := by
  obtain ⟨c, tail, he, hws, _⟩ := encVal_head v i
  rw [he, List.cons_append, skipWs_cons_nws _ hws]

theorem skipWs_encString (k rest : List Char) :
    skipWs (encString k ++ rest) = encString k ++ rest := by
  show skipWs (quoteC :: ((encStrBody k ++ [quoteC]) ++ rest)) =
    quoteC :: ((encStrBody k ++ [quoteC]) ++ rest)
  rw [skipWs_cons_nws _ (by decide)]

theorem skipWs_nl_pad (p : Nat) (X C : List Char) :
    skipWs ('\n' :: ((pad p ++ X) ++ C)) = skipWs (X ++ C) := by
  rw [skipWs_cons_ws _ (by decide), List.append_assoc, skipWs_pad]

theorem headNotDigit_arrTail (i : Nat) (tl : JArr) (l : List Char) :
    headNotDigit (encArrTail i tl ++ ('\n' :: l)) := by
  cases tl with
  | nil =>
    show isDigitC '\n' = false
    decide
  | cons y tl2 =>
    show isDigitC ',' = false
    decide

theorem headNotDigit_objTail (i : Nat) (tl : JObj) (l : List Char) :
    headNotDigit (encObjTail i tl ++ ('\n' :: l)) := by
  cases tl with
  | nil =>
    show isDigitC '\n' = false
    decide
  | cons k v tl2 =>
    show isDigitC ',' = false
    decide


theorem sizeA_pos (xs : JArr) : 1 ≤ sizeA xs := by
  cases xs <;> simp [sizeA]

theorem sizeO_pos (kvs : JObj) : 1 ≤ sizeO kvs := by
  cases kvs <;> simp [sizeO]

/-- The three round-trip statements, proved together by strong induction on a
size bound: a fuelled parse of an encoded value (or of encoded array items or
object members, mid-container) returns exactly the encoded value and the
untouched suffix. -/
theorem parse_enc_main (N : Nat) :
    (∀ v : JValue, ∀ fuel i : Nat, ∀ cs rest : List Char, sizeV v ≤ N →
      skipWs cs = encVal i v ++ rest → sizeV v ≤ fuel → headNotDigit rest →
      parseValue fuel cs = some (v, rest)) ∧
    (∀ x : JValue, ∀ tl : JArr, ∀ fuel i j : Nat, ∀ cs rest : List Char,
      sizeV x + sizeA tl + 1 ≤ N →
      skipWs cs = encVal i x ++ (encArrTail i tl ++ ('\n' :: (pad j ++ (']' :: rest)))) →
      sizeV x + sizeA tl + 1 ≤ fuel → headNotDigit rest →
      parseArrItems fuel cs = some (JArr.cons x tl, rest)) ∧
    (∀ k : List Char, ∀ v : JValue, ∀ tl : JObj, ∀ fuel i j : Nat, ∀ cs rest : List Char,
      sizeV v + sizeO tl + 1 ≤ N →
      skipWs cs = encString k ++ (':' :: ' ' :: (encVal i v ++
        (encObjTail i tl ++ ('\n' :: (pad j ++ (rbraceC :: rest)))))) →
      sizeV v + sizeO tl + 1 ≤ fuel → headNotDigit rest →
      parseObjItems fuel cs = some (JObj.cons k v tl, rest)) := by
  induction N with
  | zero =>
    refine ⟨fun v fuel i cs rest hN => absurd hN (by have := sizeV_pos v; omega),
      fun x tl fuel i j cs rest hN => absurd hN (by omega),
      fun k v tl fuel i j cs rest hN => absurd hN (by omega)⟩
  | succ N ih =>
    obtain ⟨ihV, ihA, ihO⟩ := ih
    refine ⟨?_, ?_, ?_⟩
    · -- values
      intro v fuel i cs rest hN hcs hf hrest
      obtain ⟨f, rfl⟩ : ∃ f, fuel = f + 1 :=
        ⟨fuel - 1, by have := sizeV_pos v; omega⟩
      cases v with
      | null => exact pv_null f cs rest hcs
      | bool b =>
        cases b with
        | true => exact pv_true f cs rest hcs
        | false => exact pv_false f cs rest hcs
      | num n =>
        by_cases hn : n < 0
        · have he : encVal i (JValue.num n) = '-' :: natDigits n.natAbs := by
            show encInt n = _
            rw [encInt, if_pos hn]
          rw [he] at hcs
          have hres := pv_neg f cs (natDigits n.natAbs ++ rest) rest n.natAbs hcs
            (parseNat_natDigits n.natAbs rest hrest)
          rw [hres]
          have hval : -((n.natAbs : Int)) = n := by omega
          rw [hval]
        · have he : encVal i (JValue.num n) = natDigits n.natAbs := by
            show encInt n = _
            rw [encInt, if_neg hn]
          rw [he] at hcs
          cases hnd : natDigits n.natAbs with
          | nil => exact absurd hnd (natDigits_ne_nil _)
          | cons d ds =>
            rw [hnd] at hcs
            have hd : isDigitC d = true :=
              natDigits_digits _ d (by rw [hnd]; exact List.mem_cons_self _ _)
            have hn2 : parseNat (d :: (ds ++ rest)) = some (n.natAbs, rest) := by
              have hpn := parseNat_natDigits n.natAbs rest hrest
              rw [hnd] at hpn
              exact hpn
            have hres := pv_digit f cs (ds ++ rest) rest d n.natAbs hd hcs hn2
            rw [hres]
            have hval : ((n.natAbs : Int)) = n := by omega
            rw [hval]
      | str s =>
        exact pv_str f cs ((encStrBody s ++ [quoteC]) ++ rest) s rest hcs
          (by rw [List.append_assoc]; exact parseStrBody_encStrBody s rest)
      | arr xs =>
        cases xs with
        | nil =>
          exact pv_arr_empty f cs (']' :: rest) rest hcs (skipWs_cons_nws _ (by decide))
        | cons x tl =>
          have hsz : sizeV (JValue.arr (JArr.cons x tl)) = sizeV x + sizeA tl + 2 := rfl
          obtain ⟨c2, t2, he2, hws2, hne2⟩ := encVal_head x (i + 4)
          have hT : skipWs ('\n' :: ((pad (i + 4) ++
              (encVal (i + 4) x ++ (encArrTail (i + 4) tl ++ ('\n' :: (pad i ++ [']']))))) ++
                rest)) =
              c2 :: (t2 ++ ((encArrTail (i + 4) tl ++ ('\n' :: (pad i ++ [']']))) ++
                rest)) := by
            rw [skipWs_nl_pad, List.append_assoc, he2, List.cons_append,
              skipWs_cons_nws _ hws2]
          have hitems : parseArrItems f
              (c2 :: (t2 ++ ((encArrTail (i + 4) tl ++ ('\n' :: (pad i ++ [']']))) ++
                rest))) =
              some (JArr.cons x tl, rest) := by
            apply ihA x tl f (i + 4) i _ rest (by rw [hsz] at hN; omega)
            · rw [skipWs_cons_nws _ hws2, ← List.cons_append, ← he2, List.append_assoc]
              congr 1
              simp only [List.append_assoc, List.cons_append, List.singleton_append,
                List.nil_append]
            · rw [hsz] at hf
              omega
            · exact hrest
          exact pv_arr_cons f cs _ _ rest c2 (JArr.cons x tl) hcs hT hne2 hitems
      | obj kvs =>
        cases kvs with
        | nil =>
          exact pv_obj_empty f cs (rbraceC :: rest) rest hcs (skipWs_cons_nws _ (by decide))
        | cons k v tl =>
          have hsz : sizeV (JValue.obj (JObj.cons k v tl)) = sizeV v + sizeO tl + 2 := rfl
          have hT : skipWs ('\n' :: ((pad (i + 4) ++
              (encString k ++ (':' :: ' ' :: (encVal (i + 4) v ++
                (encObjTail (i + 4) tl ++ ('\n' :: (pad i ++ [rbraceC]))))))) ++ rest)) =
              quoteC :: ((encStrBody k ++ [quoteC]) ++
                ((':' :: ' ' :: (encVal (i + 4) v ++
                  (encObjTail (i + 4) tl ++ ('\n' :: (pad i ++ [rbraceC]))))) ++ rest)) := by
            rw [skipWs_nl_pad]
            show skipWs (quoteC :: (((encStrBody k ++ [quoteC]) ++
              (':' :: ' ' :: (encVal (i + 4) v ++
                (encObjTail (i + 4) tl ++ ('\n' :: (pad i ++ [rbraceC])))))) ++ rest)) = _
            rw [skipWs_cons_nws _ (by decide), List.append_assoc]
          have hitems : parseObjItems f
              (quoteC :: ((encStrBody k ++ [quoteC]) ++
                ((':' :: ' ' :: (encVal (i + 4) v ++
                  (encObjTail (i + 4) tl ++ ('\n' :: (pad i ++ [rbraceC]))))) ++ rest))) =
              some (JObj.cons k v tl, rest) := by
            apply ihO k v tl f (i + 4) i _ rest (by rw [hsz] at hN; omega)
            · rw [skipWs_cons_nws _ (by decide)]
              show quoteC :: ((encStrBody k ++ [quoteC]) ++ _) =
                quoteC :: ((encStrBody k ++ [quoteC]) ++
                  (':' :: ' ' :: (encVal (i + 4) v ++
                    (encObjTail (i + 4) tl ++ ('\n' :: (pad i ++ (rbraceC :: rest)))))))
              congr 2
              simp only [List.append_assoc, List.cons_append, List.singleton_append,
                List.nil_append]
            · rw [hsz] at hf
              omega
            · exact hrest
          exact pv_obj_cons f cs _ _ rest quoteC (JObj.cons k v tl) hcs hT (by decide) hitems
    · -- array items
      intro x tl fuel i j cs rest hN hcs hf hrest
      obtain ⟨f, rfl⟩ : ∃ f, fuel = f + 1 := ⟨fuel - 1, by omega⟩
      have hv : parseValue f cs =
          some (x, encArrTail i tl ++ ('\n' :: (pad j ++ (']' :: rest)))) :=
        ihV x f i cs _ (by have := sizeA_pos tl; omega) hcs (by omega)
          (headNotDigit_arrTail i tl (pad j ++ (']' :: rest)))
      cases tl with
      | nil =>
        have hr : skipWs (encArrTail i JArr.nil ++ ('\n' :: (pad j ++ (']' :: rest)))) =
            ']' :: rest := by
          show skipWs ('\n' :: (pad j ++ (']' :: rest))) = ']' :: rest
          rw [skipWs_cons_ws _ (by decide), skipWs_pad, skipWs_cons_nws _ (by decide)]
        exact pai_last f cs _ rest x hv hr
      | cons y tl2 =>
        have hsz : sizeA (JArr.cons y tl2) = sizeV y + sizeA tl2 + 1 := rfl
        have hr : skipWs (encArrTail i (JArr.cons y tl2) ++
            ('\n' :: (pad j ++ (']' :: rest)))) =
            ',' :: ('\n' :: ((pad i ++ (encVal i y ++ encArrTail i tl2)) ++
              ('\n' :: (pad j ++ (']' :: rest))))) := by
          show skipWs (',' :: ('\n' :: ((pad i ++ (encVal i y ++ encArrTail i tl2)) ++
            ('\n' :: (pad j ++ (']' :: rest)))))) = _
          rw [skipWs_cons_nws _ (by decide)]
        have hrec : parseArrItems f
            ('\n' :: ((pad i ++ (encVal i y ++ encArrTail i tl2)) ++
              ('\n' :: (pad j ++ (']' :: rest))))) = some (JArr.cons y tl2, rest) := by
          apply ihA y tl2 f i j _ rest
            (by rw [hsz] at hN; have := sizeV_pos x; omega)
          · rw [skipWs_nl_pad, List.append_assoc, skipWs_encVal]
          · rw [hsz] at hf
            have := sizeV_pos x
            omega
          · exact hrest
        exact pai_cons f cs _ _ rest x (JArr.cons y tl2) hv hr hrec
    · -- object members
      intro k v tl fuel i j cs rest hN hcs hf hrest
      obtain ⟨f, rfl⟩ : ∃ f, fuel = f + 1 := ⟨fuel - 1, by omega⟩
      have hcs2 : skipWs cs = quoteC :: ((encStrBody k ++ [quoteC]) ++
          (':' :: ' ' :: (encVal i v ++
            (encObjTail i tl ++ ('\n' :: (pad j ++ (rbraceC :: rest))))))) := hcs
      have hk : parseStrBody ((encStrBody k ++ [quoteC]) ++
          (':' :: ' ' :: (encVal i v ++
            (encObjTail i tl ++ ('\n' :: (pad j ++ (rbraceC :: rest))))))) =
          some (k, ':' :: ' ' :: (encVal i v ++
            (encObjTail i tl ++ ('\n' :: (pad j ++ (rbraceC :: rest)))))) := by
        rw [List.append_assoc]
        exact parseStrBody_encStrBody k _
      have hc : skipWs (':' :: ' ' :: (encVal i v ++
          (encObjTail i tl ++ ('\n' :: (pad j ++ (rbraceC :: rest)))))) =
          ':' :: (' ' :: (encVal i v ++
            (encObjTail i tl ++ ('\n' :: (pad j ++ (rbraceC :: rest)))))) :=
        skipWs_cons_nws _ (by decide)
      have hv2 : parseValue f (' ' :: (encVal i v ++
          (encObjTail i tl ++ ('\n' :: (pad j ++ (rbraceC :: rest)))))) =
          some (v, encObjTail i tl ++ ('\n' :: (pad j ++ (rbraceC :: rest)))) := by
        apply ihV v f i _ _ (by have := sizeO_pos tl; omega) _ (by omega)
          (headNotDigit_objTail i tl (pad j ++ (rbraceC :: rest)))
        rw [skipWs_cons_ws _ (by decide), skipWs_encVal]
      cases tl with
      | nil =>
        have hr : skipWs (encObjTail i JObj.nil ++
            ('\n' :: (pad j ++ (rbraceC :: rest)))) = rbraceC :: rest := by
          show skipWs ('\n' :: (pad j ++ (rbraceC :: rest))) = rbraceC :: rest
          rw [skipWs_cons_ws _ (by decide), skipWs_pad, skipWs_cons_nws _ (by decide)]
        exact poi_last f cs _ _ _ _ rest k v hcs2 hk hc hv2 hr
      | cons k2 v2 tl2 =>
        have hsz : sizeO (JObj.cons k2 v2 tl2) = sizeV v2 + sizeO tl2 + 1 := rfl
        have hr : skipWs (encObjTail i (JObj.cons k2 v2 tl2) ++
            ('\n' :: (pad j ++ (rbraceC :: rest)))) =
            ',' :: ('\n' :: ((pad i ++ (encString k2 ++ (':' :: ' ' ::
              (encVal i v2 ++ encObjTail i tl2)))) ++
              ('\n' :: (pad j ++ (rbraceC :: rest))))) := by
          show skipWs (',' :: ('\n' :: ((pad i ++ (encString k2 ++ (':' :: ' ' ::
            (encVal i v2 ++ encObjTail i tl2)))) ++
            ('\n' :: (pad j ++ (rbraceC :: rest)))))) = _
          rw [skipWs_cons_nws _ (by decide)]
        have hrec : parseObjItems f
            ('\n' :: ((pad i ++ (encString k2 ++ (':' :: ' ' ::
              (encVal i v2 ++ encObjTail i tl2)))) ++
              ('\n' :: (pad j ++ (rbraceC :: rest))))) =
            some (JObj.cons k2 v2 tl2, rest) := by
          apply ihO k2 v2 tl2 f i j _ rest
            (by rw [hsz] at hN; have := sizeV_pos v; omega)
          · rw [skipWs_nl_pad, List.append_assoc, skipWs_encString]
            simp only [List.append_assoc, List.cons_append]
          · rw [hsz] at hf
            have := sizeV_pos v
            omega
          · exact hrest
        exact poi_cons f cs _ _ _ _ _ rest k v (JObj.cons k2 v2 tl2) hcs2 hk hc hv2 hr hrec

/-- Parsing an encoded value with adequate fuel returns the value and leaves
the suffix untouched. -/
theorem parse_encVal (v : JValue) (fuel i : Nat) (cs rest : List Char)
    (hcs : skipWs cs = encVal i v ++ rest) (hf : sizeV v ≤ fuel)
    (hrest : headNotDigit rest) : parseValue fuel cs = some (v, rest) :=
  (parse_enc_main (sizeV v)).1 v fuel i cs rest le_rfl hcs hf hrest

/-- Every constructor of an encoded value contributes at least one character,
so the parse fuel `length + 1` used by `json_load` is always adequate. -/
theorem size_le_len_main (N : Nat) :
    (∀ v : JValue, sizeV v ≤ N → ∀ i, sizeV v ≤ (encVal i v).length) ∧
    (∀ tl : JArr, sizeA tl ≤ N → ∀ i, sizeA tl ≤ (encArrTail i tl).length + 1) ∧
    (∀ tl : JObj, sizeO tl ≤ N → ∀ i, sizeO tl ≤ (encObjTail i tl).length + 1) := by
  induction N with
  | zero =>
    refine ⟨fun v hN => absurd hN (by have := sizeV_pos v; omega),
      fun tl hN => absurd hN (by have := sizeA_pos tl; omega),
      fun tl hN => absurd hN (by have := sizeO_pos tl; omega)⟩
  | succ N ih =>
    obtain ⟨ihV, ihA, ihO⟩ := ih
    refine ⟨?_, ?_, ?_⟩
    · intro v hN i
      cases v with
      | null => simp [sizeV, encVal]
      | bool b => cases b <;> simp [sizeV, encVal]
      | num n =>
        show sizeV (JValue.num n) ≤ (encInt n).length
        have h1 : sizeV (JValue.num n) = 1 := rfl
        rw [h1, encInt]
        by_cases hn : n < 0
        · rw [if_pos hn]
          simp
        · rw [if_neg hn]
          cases hnd : natDigits n.natAbs with
          | nil => exact absurd hnd (natDigits_ne_nil _)
          | cons d ds => simp
      | str s =>
        show sizeV (JValue.str s) ≤ (encString s).length
        have h1 : sizeV (JValue.str s) = 1 := rfl
        rw [h1, encString]
        simp
      | arr xs =>
        cases xs with
        | nil => simp [sizeV, sizeA, encVal]
        | cons x tl =>
          have h1 : sizeV (JValue.arr (JArr.cons x tl)) = sizeV x + sizeA tl + 2 := rfl
          have h2 : encVal i (JValue.arr (JArr.cons x tl)) =
              '[' :: '\n' :: (pad (i + 4) ++ (encVal (i + 4) x ++
                (encArrTail (i + 4) tl ++ ('\n' :: (pad i ++ [']']))))) := rfl
          have hx : sizeV x ≤ (encVal (i + 4) x).length :=
            ihV x (by rw [h1] at hN; have := sizeA_pos tl; omega) (i + 4)
          have ht : sizeA tl ≤ (encArrTail (i + 4) tl).length + 1 :=
            ihA tl (by rw [h1] at hN; have := sizeV_pos x; omega) (i + 4)
          rw [h1, h2]
          simp only [List.length_cons, List.length_append, pad, List.length_replicate,
            List.length_singleton]
          omega
      | obj kvs =>
        cases kvs with
        | nil => simp [sizeV, sizeO, encVal]
        | cons k v tl =>
          have h1 : sizeV (JValue.obj (JObj.cons k v tl)) = sizeV v + sizeO tl + 2 := rfl
          have h2 : encVal i (JValue.obj (JObj.cons k v tl)) =
              lbraceC :: '\n' :: (pad (i + 4) ++ (encString k ++ (':' :: ' ' ::
                (encVal (i + 4) v ++ (encObjTail (i + 4) tl ++
                  ('\n' :: (pad i ++ [rbraceC]))))))) := rfl
          have hx : sizeV v ≤ (encVal (i + 4) v).length :=
            ihV v (by rw [h1] at hN; have := sizeO_pos tl; omega) (i + 4)
          have ht : sizeO tl ≤ (encObjTail (i + 4) tl).length + 1 :=
            ihO tl (by rw [h1] at hN; have := sizeV_pos v; omega) (i + 4)
          rw [h1, h2]
          simp only [List.length_cons, List.length_append, pad, List.length_replicate,
            List.length_singleton]
          omega
    · intro tl hN i
      cases tl with
      | nil => simp [sizeA]
      | cons y tl2 =>
        have h1 : sizeA (JArr.cons y tl2) = sizeV y + sizeA tl2 + 1 := rfl
        have h2 : encArrTail i (JArr.cons y tl2) =
            ',' :: '\n' :: (pad i ++ (encVal i y ++ encArrTail i tl2)) := rfl
        have hy : sizeV y ≤ (encVal i y).length :=
          ihV y (by rw [h1] at hN; have := sizeA_pos tl2; omega) i
        have ht : sizeA tl2 ≤ (encArrTail i tl2).length + 1 :=
          ihA tl2 (by rw [h1] at hN; have := sizeV_pos y; omega) i
        rw [h1, h2]
        simp only [List.length_cons, List.length_append, pad, List.length_replicate]
        omega
    · intro tl hN i
      cases tl with
      | nil => simp [sizeO]
      | cons k2 v2 tl2 =>
        have h1 : sizeO (JObj.cons k2 v2 tl2) = sizeV v2 + sizeO tl2 + 1 := rfl
        have h2 : encObjTail i (JObj.cons k2 v2 tl2) =
            ',' :: '\n' :: (pad i ++ (encString k2 ++ (':' :: ' ' ::
              (encVal i v2 ++ encObjTail i tl2)))) := rfl
        have hy : sizeV v2 ≤ (encVal i v2).length :=
          ihV v2 (by rw [h1] at hN; have := sizeO_pos tl2; omega) i
        have ht : sizeO tl2 ≤ (encObjTail i tl2).length + 1 :=
          ihO tl2 (by rw [h1] at hN; have := sizeV_pos v2; omega) i
        rw [h1, h2]
        simp only [List.length_cons, List.length_append, pad, List.length_replicate]
        omega

theorem sizeV_le_encVal_length (v : JValue) (i : Nat) : sizeV v ≤ (encVal i v).length :=
  (size_le_len_main (sizeV v)).1 v le_rfl i

/-- Round trip: what `json.dump(..., indent=4)` writes, `json.load` reads back
as the identical value. -/
theorem json_load_json_encode (v : JValue) : json_load (json_encode v) = some v := by
  have hp : parseValue ((encVal 0 v).length + 1) (encVal 0 v) = some (v, []) := by
    apply parse_encVal v _ 0 _ []
    · have h := skipWs_encVal v 0 []
      rw [List.append_nil] at h
      rw [List.append_nil]
      exact h
    · have := sizeV_le_encVal_length v 0
      omega
    · trivial
  show (match parseValue ((encVal 0 v).length + 1) (encVal 0 v) with
    | some (v2, rest) => if skipWs rest = [] then some v2 else none
    | none => none) = some v
  rw [hp]
  rfl

/-! ## Claim C5 -/

/-- C5: on a cache miss with a 2xx response whose body decodes to `v`, the
JSON fetcher writes `v` back pretty-printed (`json.dump(data, f, indent=4)`)
and returns `v`; the immediately following call takes the cache-hit path on
that file and `json.load` returns a payload deep-equal to `v` — JSON encode
followed by decode is the identity on decoded values
(`json_load_json_encode`).  `hdir` is the precondition that the cache
directory already exists, since the JSON fetcher does not create it (C7). -/
theorem claim_C5_json_cache_round_trip (status : Nat) (body : String) (fs : FS)
    (v : JValue) (net2 : Net)
    (hmiss : fs.file = none) (hdir : fs.dirExists = true)
    (h2 : is2xx status) (hdec : json_load body = some v) :
    ApiHandler.get_usgs_json_data (Net.success status body) fs =
      (Res.val v, ⟨true, some (.readable (json_encode v))⟩) ∧
    ApiHandler.get_usgs_json_data net2 ⟨true, some (.readable (json_encode v))⟩ =
      (Res.val v, ⟨true, some (.readable (json_encode v))⟩) := by
  have hnb := is2xx_not_bad h2
  constructor
  · rcases fs with ⟨d, f⟩
    cases hmiss
    cases hdir
    simp [ApiHandler.get_usgs_json_data, ApiHandler.jsonFetchMiss, hnb, hdec]
  · simp [ApiHandler.get_usgs_json_data, json_load_json_encode]

/-- C5 witness at a concrete payload `{"a": [1, 2]}`. -/
theorem claim_C5_witness :
    FS.file ⟨true, none⟩ = none ∧ FS.dirExists ⟨true, none⟩ = true ∧ is2xx 200 ∧
    json_load "\x7b\"a\": [1, 2]\x7d" =
      some (.obj (.cons "a".toList
        (.arr (.cons (.num 1) (.cons (.num 2) .nil))) .nil)) ∧
    (ApiHandler.get_usgs_json_data (Net.success 200 "\x7b\"a\": [1, 2]\x7d") ⟨true, none⟩ =
      (Res.val (.obj (.cons "a".toList
          (.arr (.cons (.num 1) (.cons (.num 2) .nil))) .nil)),
       ⟨true, some (.readable (json_encode (.obj (.cons "a".toList
          (.arr (.cons (.num 1) (.cons (.num 2) .nil))) .nil))))⟩)) ∧
    (ApiHandler.get_usgs_json_data Net.exn
        ⟨true, some (.readable (json_encode (.obj (.cons "a".toList
          (.arr (.cons (.num 1) (.cons (.num 2) .nil))) .nil))))⟩ =
      (Res.val (.obj (.cons "a".toList
          (.arr (.cons (.num 1) (.cons (.num 2) .nil))) .nil)),
       ⟨true, some (.readable (json_encode (.obj (.cons "a".toList
          (.arr (.cons (.num 1) (.cons (.num 2) .nil))) .nil))))⟩)) := by
  have h2 : is2xx 200 := by constructor <;> omega
  have hdec : json_load "\x7b\"a\": [1, 2]\x7d" =
      some (.obj (.cons "a".toList
        (.arr (.cons (.num 1) (.cons (.num 2) .nil))) .nil)) := by rfl
  have h := claim_C5_json_cache_round_trip 200 "\x7b\"a\": [1, 2]\x7d" ⟨true, none⟩
    (.obj (.cons "a".toList (.arr (.cons (.num 1) (.cons (.num 2) .nil))) .nil))
    Net.exn rfl rfl h2 hdec
  exact ⟨rfl, rfl, h2, hdec, h.1, h.2⟩
